import Mathlib

/-!
Verification of `src/calibre/library/catalog.py` (catalog-export plugins).

The Python source is shallowly embedded: pure fragments become Lean
functions, stateful fragments become explicit state passing.  Machine
integers are `Nat`/`Int`; Python `float` values that the relevant code paths
only ever apply to integers below `2^53` (where double arithmetic is exact)
are embedded as exact naturals, and the one option-validation path that
needs general floats is embedded with an explicit `nan`/`inf` model over `ℚ`.
Python strings are Lean `String`s compared by Unicode code point, matching
Python 2 unicode comparison.

Functions imported by `catalog.py` from calibre modules that are not part of
`src/` (`title_sort`, `capitalize`, `icu_title`) are modelled from the spec
and marked as such in their doc comments.
-/

namespace Catalog

/-- Worker for `pySplit`: scans the characters, accumulating the current
word in reverse. -/
def pySplitAux : List Char → List Char → List String
  | [], acc => if acc.isEmpty then [] else [String.mk acc.reverse]
  | c :: cs, acc =>
    if c.isWhitespace then
      if acc.isEmpty then pySplitAux cs [] else String.mk acc.reverse :: pySplitAux cs []
    else
      pySplitAux cs (c :: acc)

/-- Python-style whitespace split: `s.split()` splits on runs of whitespace
and never yields empty words. -/
def pySplit (s : String) : List String :=
  pySplitAux s.data []

/-- `re.search('[a-zA-Z]', c)` succeeds: the character is an ASCII letter. -/
def isAlphaAZ (c : Char) : Bool :=
  ('a' ≤ c && c ≤ 'z') || ('A' ≤ c && c ≤ 'Z')

/-- Embedding of `letter_or_symbol` (catalog.py lines 4675-4679): a character
that is not an ASCII letter maps to the bucket label `"Symbols"`, a letter
maps to itself.  The call sites always pass a one-character string, so the
embedding takes a `Char`. -/
def letter_or_symbol (c : Char) : String :=
  if isAlphaAZ c then String.mk [c] else "Symbols"

/-- Modelled from the spec: `capitalize` is imported from
`calibre.utils.icu`, which is not under `src/`.  The spec says "the first
word is capitalized"; modelled as uppercasing the first character and
lowercasing the rest, which is also the behaviour of Python's
`str.capitalize`. -/
def capFirst (s : String) : String :=
  match s.data with
  | [] => ""
  | c :: cs => String.mk (c.toUpper :: cs.map Char.toLower)

/-- Modelled from the spec: stop words whose leading occurrences
`title_sort` removes ("leading stop words are removed (via title_sort)");
`title_sort` lives in `calibre.ebooks.metadata`, which is not under
`src/`. -/
def stopWords : List String := ["a", "an", "the"]

/-- Embedding of Python's `' '.join(words)`. -/
def joinSpace : List String → String
  | [] => ""
  | [w] => w
  | w :: ws => w ++ " " ++ joinSpace ws

/-- Modelled from the spec: `title_sort` (from `calibre.ebooks.metadata`,
not under `src/`) removes the leading stop words of the title. -/
def title_sort (title : String) : String :=
  joinSpace
    ((pySplit title).dropWhile (fun w => stopWords.contains (String.mk (w.data.map Char.toLower))))

/-- Numeric value of a string of ASCII digits, most significant first. -/
def natOfDigits (ds : List Char) : Nat :=
  ds.foldl (fun a c => 10 * a + (c.toNat - 48)) 0

/-- Fuel-driven worker computing the decimal digits of a natural number,
most significant first. -/
def natDigitsAux : Nat → Nat → List Char
  | 0, _ => []
  | fuel + 1, n =>
    if n < 10 then [Char.ofNat (48 + n)]
    else natDigitsAux fuel (n / 10) ++ [Char.ofNat (48 + n % 10)]

/-- Decimal digits of a natural number, most significant first. -/
def natDigits (n : Nat) : List Char := natDigitsAux (n + 1) n

/-- Embedding of Python's `'%10.0f' % float(n)` for a natural number `n`:
the decimal numeral right-aligned in a field of (at least) 10 characters.
Exact for `n < 2^53`, where IEEE doubles represent integers exactly; every
theorem below that depends on the numeral's digits stays in that range. -/
def pyFormat10_0f (n : Nat) : String :=
  if (natDigits n).length < 10 then
    String.mk (List.replicate (10 - (natDigits n).length) ' ') ++ String.mk (natDigits n)
  else String.mk (natDigits n)

/-- Embedding of the number translation applied to a word whose first
character is a digit (catalog.py lines 4597-4603 and 4613-4619): commas are
removed, the maximal digit prefix is converted through
`'%10.0f' % float(...)`, and any non-digit suffix is appended unchanged. -/
def numTransform (w : String) : String :=
  let w' := w.data.filter (fun c => c ≠ ',')
  let ds := w'.takeWhile Char.isDigit
  let suf := w'.dropWhile Char.isDigit
  pyFormat10_0f (natOfDigits ds) ++ String.mk suf

/-- The leading-symbol test of `generateSortTitle` (catalog.py lines
4605-4610): if the first character of the (possibly number-translated) first
word is not a letter and sorts above `'A'` (or sits between `'9'` and `'A'`),
a `"/"` is prepended to force a low sort; the word itself is capitalized. -/
def transformFirstSlash (w1 : String) : List String :=
  match w1.data with
  | [] => [capFirst w1]
  | c :: _ =>
    if letter_or_symbol c ≠ String.mk [c] ∧
       ('A' < c ∨ ((57 : Nat) < c.toNat ∧ c.toNat < 65)) then
      ["/", capFirst w1]
    else
      [capFirst w1]

/-- Embedding of the `i == 0` branch of the word loop in `generateSortTitle`
(catalog.py lines 4591-4610): optional number translation, then the
leading-symbol test; the word is passed as its character list. -/
def transformFirstWordCore : List Char → List String
  | [] => [capFirst (String.mk [])]
  | c0 :: rest =>
    transformFirstSlash
      (if c0.isDigit then numTransform (String.mk (c0 :: rest))
       else String.mk (c0 :: rest))

/-- The `i == 0` branch of `generateSortTitle`, on a word. -/
def transformFirstWord (w : String) : List String :=
  transformFirstWordCore w.data

/-- Embedding of the `i > 0` branch of the word loop in `generateSortTitle`
(catalog.py lines 4612-4620). -/
def transformRestWord (w : String) : String :=
  match w.data with
  | [] => w
  | c :: _ => if c.isDigit then numTransform w else w

/-- Embedding of `generateSortTitle` (catalog.py lines 4576-4621). -/
def generateSortTitle (title : String) : String :=
  match pySplit (title_sort title) with
  | [] => ""
  | w :: ws =>
    joinSpace (transformFirstWord w ++ ws.map transformRestWord)

/-- Boolean lexicographic strict order on character lists by Unicode code
point: the embedding of Python 2 unicode string comparison. -/
def lexLt : List Char → List Char → Bool
  | _, [] => false
  | [], _ :: _ => true
  | a :: as, b :: bs => if a < b then true else if b < a then false else lexLt as bs

/-- Python `s1 < s2` on strings. -/
def strLt (s t : String) : Bool := lexLt s.data t.data

/-- Python `s1 <= s2` on strings. -/
def strLe (s t : String) : Bool := !strLt t s

/-- Python `s.upper()` (ASCII part, which is all the sort keys contain at
the compared positions). -/
def upperStr (s : String) : String := String.mk (s.data.map Char.toUpper)

/-- A book as consumed by the Titles section: only the fields that
`generateHTMLByTitle`'s bucket loop reads.  `fetchBooksByTitle` (catalog.py
line 1552) sets `title_sort` to `generateSortTitle(title)`. -/
structure TBook where
  title : String
  title_sort : String
  deriving DecidableEq, Repr

/-- `s[0]` for the nonempty strings the loop indexes (Python raises
`IndexError` on an empty `title_sort`; the theorems below assume the sort
key is nonempty, so the default is never reached). -/
def firstChar (s : String) : Char := s.data.headD 'A'

/-- Bucket letter of a book: `letter_or_symbol(book['title_sort'][0])`
(catalog.py line 1828). -/
def bookLetter (b : TBook) : String := letter_or_symbol (firstChar b.title_sort)

/-- Worker for `titleBuckets`: `cur` is the running `divRunningTag` with its
letter (`current_letter`) and collected books; a new bucket starts exactly
when the letter changes (catalog.py lines 1827-1844), and the running bucket
is flushed at the end (lines 1904-1907). -/
def titleBucketsGo (cur : String × List TBook) : List TBook → List (String × List TBook)
  | [] => [cur]
  | b :: bs =>
    if bookLetter b ≠ cur.1 then cur :: titleBucketsGo (bookLetter b, [b]) bs
    else titleBucketsGo (cur.1, cur.2 ++ [b]) bs

/-- Embedding of the letter-bucket structure produced by the book loop of
`generateHTMLByTitle` (catalog.py lines 1812, 1827-1844, 1904-1907):
`current_letter` starts as `""`, which no `letter_or_symbol` value equals,
so the first book always opens a bucket. -/
def titleBuckets : List TBook → List (String × List TBook)
  | [] => []
  | b :: bs => titleBucketsGo (bookLetter b, [b]) bs

/-! ### Author sorting, the author-sort consistency check, and unique authors -/

/-- A book record with the fields read by `fetchBooksByAuthor` and the
file-level build pipeline. -/
structure BookRec where
  id : Nat
  author : String
  author_sort : String
  title : String
  title_sort : String
  series : Option String
  series_index : Rat
  deriving DecidableEq, Repr

/-- Embedding of `author_to_author_sort` (catalog.py lines 3926-3931):
moves the last name token to the front, adds a comma when there are several
tokens, and applies Python's `str.capitalize`. -/
def author_to_author_sort (author : String) : String :=
  let tokens := pySplit author
  let reordered := tokens.drop (tokens.length - 1) ++ tokens.dropLast
  capFirst (joinSpace (match reordered with
    | [] => []
    | t :: rest => if rest.isEmpty then t :: rest else (t ++ ",") :: rest))

/-- Decimal numeral zero-padded to (at least) four characters:
Python's `'%04d' % n` for the nonnegative values used here. -/
def pad4Zeros (n : Nat) : String :=
  let s := String.mk (natDigits n)
  if s.length < 4 then String.mk (List.replicate (4 - s.length) '0') ++ s
  else s

/-- Embedding of the series-index key fragment
`'%04d%s' % (integer, str('%0.4f' % fraction).lstrip('0'))`
(catalog.py lines 3941-3944 and 3958-3961) for the nonnegative series
indices the database stores; exact rational rounding stands in for binary
float rounding. -/
def seriesIndexFormat (idx : Rat) : String :=
  let integer : Int := ⌊idx⌋
  let fraction : Rat := idx - integer
  let r : Int := ⌊fraction * 10000 + 1 / 2⌋
  let fracStr := if r ≥ 10000 then "1." ++ pad4Zeros (r - 10000).toNat
                 else "." ++ pad4Zeros r.toNat
  pad4Zeros integer.toNat ++ fracStr

/-- Embedding of `booksByAuthorSorter_author` (catalog.py lines 3950-3965):
the sort key used before the author-sort consistency check.  A falsy
`series` (Python `None` or `""`) is modelled as `none`. -/
def booksByAuthorSorter_author (b : BookRec) : String :=
  match b.series with
  | none => author_to_author_sort b.author ++ " " ++ capFirst b.title_sort
  | some s => author_to_author_sort b.author ++ " ~" ++ generateSortTitle s ++ " " ++
      seriesIndexFormat b.series_index

/-- Embedding of `sorted(self.booksByAuthor, key=self.booksByAuthorSorter_author)`
(catalog.py line 1441).  Python's `sorted` is a stable sort; `insertionSort`
is stable, and none of the properties proved below depend on the tie order. -/
def sortedByAuthor (books : List BookRec) : List BookRec :=
  List.insertionSort
    (fun b1 b2 => strLe (booksByAuthorSorter_author b1) (booksByAuthorSorter_author b2) = true)
    books

/-- The metadata-error message of catalog.py lines 1449-1454, with its
whitespace condensed to one line. -/
def authorSortMismatchMsg (author s1 s2 : String) : String :=
  "Inconsistent Author Sort values for Author '" ++ author ++ "': '" ++ s1 ++
    "' <> '" ++ s2 ++ "', unable to build catalog."

/-- Embedding of the author-sort mismatch walk of `fetchBooksByAuthor`
(catalog.py lines 1443-1461) over the `(author, author_sort)` pairs in
sorted order: `cur` is `current_author`; a pair that differs from `cur`
with the same display name raises the error, a pair with a new display
name becomes `cur`.  Returns `(success, appended errors)`. -/
def walkErr (cur : String × String) : List (String × String) → Bool × List String
  | [] => (true, [])
  | a :: as =>
    if a ≠ cur then
      if a.1 = cur.1 then
        (false, ["Metadata error", authorSortMismatchMsg a.1 a.2 cur.2])
      else walkErr a as
    else walkErr cur as

/-- Some adjacent pair of the list has the same display name but a
different author sort. -/
def adjBad : List (String × String) → Bool
  | [] => false
  | [_] => false
  | x :: y :: rest => (decide (x.1 = y.1 ∧ x.2 ≠ y.2)) || adjBad (y :: rest)

/-- The author-sort consistency check of `fetchBooksByAuthor` (catalog.py
lines 1440-1461): sort by `booksByAuthorSorter_author`, then walk the
`(author, author_sort)` pairs.  The first comparison of the Python loop
(`i == 0`) compares `authors[0]` with itself and can never fire, so the
walk starts from the head pair.  An empty list would raise `IndexError` at
`authors[0]`; it is mapped to success and never reached by the pipeline,
which aborts earlier on an empty book list. -/
def fetchBooksByAuthorResult (books : List BookRec) : Bool × List String :=
  match (sortedByAuthor books).map (fun b => (b.author, b.author_sort)) with
  | [] => (true, [])
  | a :: as => walkErr a as

/-- Modelled from the spec: `icu_title` (from `calibre.utils.icu`, not under
`src/`) title-cases a string; modelled as capitalizing each
whitespace-separated word. -/
def icu_title (s : String) : String := joinSpace ((pySplit s).map capFirst)

/-- Embedding of the unique-author accumulation of `fetchBooksByAuthor`
(catalog.py lines 1466-1496) over the `(author, capitalize(author_sort))`
pairs in sorted order, including the `for`/`else` clause that appends the
final author.  Python's `else` always runs here (the loop has no `break`),
with `author` bound to the last pair. -/
def uniqueAuthors (authors : List (String × String)) : List (String × String × Nat) :=
  match authors with
  | [] => []
  | a0 :: rest =>
    let step := fun (st : List (String × String × Nat) × (String × String) × Nat × Bool)
        (ia : Nat × (String × String)) =>
      let ua := st.1
      let current := st.2.1
      let count := st.2.2.1
      let multiple := st.2.2.2
      let i := ia.1
      let author := ia.2
      if author ≠ current then
        (ua ++ [(current.1, icu_title current.2, count)], author, 1, true)
      else if i = 0 ∧ authors.length = 1 then
        (ua ++ [(current.1, icu_title current.2, count)], current, count, multiple)
      else
        (ua, current, count + 1, multiple)
    let st := (a0 :: rest).enum.foldl step ([], a0, 0, false)
    let last := (a0 :: rest).getLast (by simp)
    if (st.2.1 = last ∧ authors.length > 1) ∨ ¬ st.2.2.2 then
      st.1 ++ [(st.2.1.1, icu_title st.2.1.2, st.2.2.1)]
    else st.1

/-! ### File-level build pipeline (buildSources / generateOPF / NCX headers) -/

/-- The option flags read by `buildSources` and the OPF/NCX assemblers.
`generateRecentlyRead` is the derived flag of catalog.py lines 951-954. -/
structure Opts where
  generate_descriptions : Bool
  generate_authors : Bool
  generate_titles : Bool
  generate_series : Bool
  generate_genres : Bool
  generate_recently_added : Bool
  generateRecentlyRead : Bool
  deriving DecidableEq, Repr

/-- `content/book_%d.html` for a book (catalog.py lines 1770, 3048, 3155,
3204). -/
def bookDescriptionFile (b : BookRec) : String :=
  "content/book_" ++ String.mk (natDigits b.id) ++ ".html"

/-- `content/Genre_%s.html` for a normalized genre tag (catalog.py lines
2836-2839, 3845, 3869). -/
def genreFile (tag : String) : String := "content/Genre_" ++ tag ++ ".html"

/-- The manifest/spine id of an HTML file:
`file[file.find('/')+1 : file.find('.')].lower()` (catalog.py lines
2996-2999). -/
def manifestId (f : String) : String :=
  String.mk (((f.data.takeWhile (fun c => c ≠ '.')).drop
    ((f.data.takeWhile (fun c => c ≠ '/')).length + 1)).map Char.toLower)

/-- The three generated document structures, projected to the file level:
which content files `buildSources` writes, the OPF manifest hrefs, the OPF
spine idrefs, and the file part (fragment stripped) of every navPoint
content `src` in the NCX. -/
structure BuildOut where
  written : List String
  manifest : List String
  spine : List String
  ncxSrcFiles : List String
  deriving DecidableEq, Repr

/-- File-level embedding of `buildSources` (catalog.py lines 1353-1401)
together with `generateOPF` (2917-3069) and the NCX builders (3071-3916):

* an empty book list fails `fetchBooksByTitle` (1650-1655) and a metadata
  error fails `fetchBooksByAuthor` (1460), aborting before any output;
* `generateHTMLBySeries` clears `generate_series` when its query returns no
  series books (2598-2601);
* when `section_list == ['Genres']` and no genres were found, `buildSources`
  aborts (1371-1377);
* the HTML generators write `book_<id>.html` per book (1770),
  `ByAlphaTitle.html` (1914-1918), `ByAlphaAuthor.html` (2123-2129),
  `ByDateAdded.html` (2391-2395), `ByDateRead.html` when bookmarks exist
  (2403, 2560-2564), `BySeries.html` (2739-2743) and one `Genre_<tag>.html`
  per genre (2834-2839);
* the manifest holds the NCX, stylesheet, masthead, thumbnails when
  descriptions are generated, the section HTML files and the per-book
  description files; the spine holds the idrefs of the same HTML files
  (2955-3058); `sort_descriptions_by_author` is hard-wired `True` (4908);
* the NCX header references the first enabled section's file, with
  `content/ByGenres.html` in the genres branch (3095-3120); each NCX
  section and its articles reference their section's file, genre articles
  reference the genre files (3869), and the Descriptions section references
  `booksByTitle[0]`'s file and each book's file (3155, 3204). -/
def buildSourcesFiles (opts : Opts) (books : List BookRec)
    (booksBySeries : List BookRec) (genres : List String) (hasBookmarks : Bool) :
    Option BuildOut :=
  if books.isEmpty then none
  else if (fetchBooksByAuthorResult books).1 = false then none
  else if opts.generate_genres && !opts.generate_authors && !opts.generate_titles &&
      !opts.generate_series && !opts.generate_recently_added &&
      !opts.generate_descriptions && genres.isEmpty then none
  else
    let genSeries := opts.generate_series && !booksBySeries.isEmpty
    let writtenDescr := if opts.generate_descriptions then books.map bookDescriptionFile else []
    let html1 := (if opts.generate_authors then ["content/ByAlphaAuthor.html"] else []) ++
                 (if opts.generate_titles then ["content/ByAlphaTitle.html"] else []) ++
                 (if genSeries then ["content/BySeries.html"] else [])
    let genreFiles := if opts.generate_genres then genres.map genreFile else []
    let writeDateRead := opts.generateRecentlyRead && hasBookmarks
    let html2 := (if opts.generate_recently_added then ["content/ByDateAdded.html"] else []) ++
                 (if writeDateRead then ["content/ByDateRead.html"] else [])
    let sortDescBy := sortedByAuthor books
    let manifest := ["Catalog.ncx", "content/stylesheet.css", "images/mastheadImage.gif"] ++
      (if opts.generate_descriptions then
        "images/thumbnail_default.jpg" ::
          books.map (fun b => "images/thumbnail_" ++ String.mk (natDigits b.id) ++ ".jpg")
       else []) ++
      html1 ++ genreFiles ++ html2 ++
      (if opts.generate_descriptions then sortDescBy.map bookDescriptionFile else [])
    let spine := (html1 ++ genreFiles ++ html2).map manifestId ++
      (if opts.generate_descriptions then
        sortDescBy.map (fun b => "book" ++ String.mk (natDigits b.id)) else [])
    let headerSrc :=
      if opts.generate_authors then "content/ByAlphaAuthor.html"
      else if opts.generate_titles then "content/ByAlphaTitle.html"
      else if genSeries then "content/BySeries.html"
      else if opts.generate_genres then "content/ByGenres.html"
      else if opts.generate_recently_added then "content/ByDateAdded.html"
      else match sortDescBy with
        | [] => ""
        | b :: _ => bookDescriptionFile b
    let ncxSrcFiles :=
      [headerSrc] ++
      (if opts.generate_authors then ["content/ByAlphaAuthor.html"] else []) ++
      (if opts.generate_titles then ["content/ByAlphaTitle.html"] else []) ++
      (if genSeries then ["content/BySeries.html"] else []) ++
      (if opts.generate_genres && !genres.isEmpty then genres.map genreFile else []) ++
      (if opts.generate_recently_added then ["content/ByDateAdded.html"] else []) ++
      (if writeDateRead then ["content/ByDateRead.html"] else []) ++
      (if opts.generate_descriptions then
        (match books with
          | [] => []
          | b :: _ => [bookDescriptionFile b]) ++ sortDescBy.map bookDescriptionFile
       else [])
    some ⟨writtenDescr ++ html1 ++ genreFiles ++ html2, manifest, spine, ncxSrcFiles⟩

/-! ### NCX navigation points and play order -/

/-- A navPoint of the NCX navigation map, keeping only class, id, the
optional `playOrder` attribute and the nested navPoints. -/
structure NavPoint where
  cls : String
  id : String
  playOrder : Option Nat
  children : List NavPoint

/-- Embedding of `generateNCXHeader` (catalog.py lines 3071-3130): the
periodical title navPoint takes the initial play order 1 (`__init__` line
963) and the counter advances. -/
def ncxHeader : NavPoint × Nat :=
  ({ cls := "periodical", id := "title", playOrder := some 1, children := [] }, 2)

/-- Embedding of `generateNCXByTitle` (catalog.py lines 3332-3424).  The
section navPoint takes the current play order (3349-3350).  For each letter
article the code then executes `navPointTag['playOrder'] = self.playOrder`
(line 3399) — assigning to the **section** tag, not to
`navPointByLetterTag` — and increments the counter (3400), so every article
navPoint is created without a playOrder attribute and the section's
playOrder is overwritten once per article.  The letter list of lines
3371-3392 starts new letters exactly where the bucket loop of
`generateHTMLByTitle` does, so it equals the bucket labels. -/
def ncxByTitle (books : List TBook) (counter0 : Nat) : NavPoint × Nat :=
  let letters := (titleBuckets books).map Prod.fst
  let st := letters.foldl (fun (st : Nat × Nat) _ => (st.2, st.2 + 1)) (counter0, counter0 + 1)
  ({ cls := "section", id := "byalphatitle-ID", playOrder := some st.1,
     children := letters.map (fun l =>
       { cls := "article", id := upperStr l ++ "Titles-ID", playOrder := none,
         children := [] }) },
   st.2)

/-- Embedding of `generateNCXDescriptions` (catalog.py lines 3132-3238):
here the articles *do* receive the play-order counter
(`navPointVolumeTag['playOrder'] = self.playOrder`, line 3167). -/
def ncxDescriptions (books : List BookRec) (counter0 : Nat) : NavPoint × Nat :=
  ({ cls := "section", id := "bytitle-ID", playOrder := some counter0,
     children := (List.range books.length).zip books |>.map (fun ib =>
       { cls := "article", id := "book" ++ String.mk (natDigits ib.2.id) ++ "ID",
         playOrder := some (counter0 + 1 + ib.1), children := [] }) },
   counter0 + 1 + books.length)

/-! ### Thumbnail cache (generateThumbnail) -/

/-- One member of the `thumbs.zip` archive: name (the book's uuid), the
comment carrying the recorded cover hash, and the thumbnail bytes. -/
structure ZipEntry where
  name : String
  comment : String
  data : List Nat
  deriving DecidableEq, Repr

/-- A lowercase hexadecimal digit. -/
def hexDigitChar (m : Nat) : Char :=
  if m < 10 then Char.ofNat (48 + m) else Char.ofNat (87 + m)

/-- Fuel-driven worker computing hexadecimal digits, most significant
first. -/
def hexDigitsAux : Nat → Nat → List Char
  | 0, _ => []
  | fuel + 1, n =>
    if n < 16 then [hexDigitChar n]
    else hexDigitsAux fuel (n / 16) ++ [hexDigitChar (n % 16)]

/-- Python 2's `hex()` of a (possibly negative, as `zlib.crc32` returns)
integer, used for the recorded cover hash. -/
def pyHex (n : Int) : String :=
  (if n < 0 then "-0x" else "0x") ++ String.mk (hexDigitsAux (n.natAbs + 1) n.natAbs)

/-- Modelled from the spec: `ZipFile.getinfo` (from `calibre.utils.zipfile`,
not under `src/`) resolves a member name through `NameToInfo`, which is
overwritten in archive order, so the **last** entry bearing the name wins. -/
def getinfo (archive : List ZipEntry) (name : String) : Option ZipEntry :=
  archive.foldl (fun acc e => if e.name = name then some e else acc) none

/-- The outcome of `generateThumbnail`: whether the cached thumbnail was
reused, the file written to the images directory (name and bytes), and the
archive after the call. -/
structure ThumbResult where
  reused : Bool
  imageWritten : String × List Nat
  archive : List ZipEntry
  deriving DecidableEq, Repr

/-- Embedding of `generateThumbnail` (catalog.py lines 4623-4661).  The
CRC32 function and the thumbnail scaler are parameters (`zlib.crc32` and
`calibre.utils.magick.draw.thumbnail` are external to this module).  If the
archive holds an entry under the book's uuid whose comment equals
`hex(crc32(cover bytes))`, that entry's bytes are extracted and renamed to
`thumb_file` (4642-4648); otherwise a fresh thumbnail is computed, written
to the images directory, and appended to the archive with the new hash as
its comment (4652-4661).  A failed `getinfo` raises `KeyError`, which the
bare `except` turns into the fresh-thumbnail path (4637-4640). -/
def generateThumbnail (crc32 : List Nat → Int) (thumbnail : List Nat → List Nat)
    (archive : List ZipEntry) (uuid : String) (coverData : List Nat)
    (thumb_file : String) : ThumbResult :=
  let cover_crc := pyHex (crc32 coverData)
  let fresh : ThumbResult :=
    { reused := false,
      imageWritten := (thumb_file, thumbnail coverData),
      archive := archive ++ [⟨uuid, cover_crc, thumbnail coverData⟩] }
  match getinfo archive uuid with
  | some t_info =>
    if t_info.comment = cover_crc then
      { reused := true, imageWritten := (thumb_file, t_info.data), archive := archive }
    else fresh
  | none => fresh

/-- The entry the archive currently holds for a book: the last entry under
its name (matching `NameToInfo` semantics, stated independently of the
`getinfo` fold). -/
def archivedEntry (archive : List ZipEntry) (name : String) : Option ZipEntry :=
  (archive.filter (fun e => e.name = name)).getLast?

/-! ### CSV output (CSV_XML.run) -/

/-- A Python value as the CSV writer sees it: `None`, a string, a list of
strings (authors, tags, formats), or a datetime rendered by its
`isoformat`. -/
inductive PyVal where
  | none : PyVal
  | str : String → PyVal
  | strList : List String → PyVal
  | date : String → PyVal
  deriving DecidableEq, Repr

/-- `unicode(item)` for the values that reach the quoting step. -/
def pyStr : PyVal → String
  | PyVal.none => "None"
  | PyVal.str s => s
  | PyVal.strList l => joinSpace l
  | PyVal.date iso => iso

/-- `format.rpartition('.')[2].lower()`: the part after the last dot,
lowercased (the whole string when there is no dot). -/
def afterLastDotLower (s : String) : String :=
  String.mk (((s.data.reverse.takeWhile (fun c => c ≠ '.')).reverse).map Char.toLower)

/-- Python's `', '.join(l)`. -/
def joinCommaSpace : List String → String
  | [] => ""
  | [w] => w
  | w :: ws => w ++ ", " ++ joinCommaSpace ws

/-- Python's `','.join(l)`. -/
def joinComma : List String → String
  | [] => ""
  | [w] => w
  | w :: ws => w ++ "," ++ joinComma ws

/-- `item.replace('\r\n',' ')` followed by `item.replace('\n',' ')`
(catalog.py lines 143-144), fused into one scan. -/
def stripNewlines : List Char → List Char
  | [] => []
  | '\r' :: '\n' :: rest => ' ' :: stripNewlines rest
  | '\n' :: rest => ' ' :: stripNewlines rest
  | c :: rest => c :: stripNewlines rest

/-- `unicode(item).replace('"','""')`: double every embedded quote. -/
def escapeQuotes (s : String) : String :=
  String.mk (s.data.foldr (fun c acc => if c = '"' then '"' :: '"' :: acc else c :: acc) [])

/-- A database row as the CSV writer reads it: the id plus the field map. -/
structure CSVEntry where
  id : Nat
  fields : String → PyVal

/-- `entry[field]`, or `db.get_field(entry['id'], field, index_is_id=True)`
for custom (`#`-prefixed) fields (catalog.py lines 122-126). -/
def csvItem (db : Nat → String → PyVal) (entry : CSVEntry) (field : String) : PyVal :=
  if field.data.take 1 = ['#'] then db entry.id field else entry.fields field

/-- The per-field normalization chain of catalog.py lines 130-144 (applied
only to non-`None` items): formats become their lowercased extensions
joined by `', '`, authors and tags are joined by `', '`, the isbn keeps
only digits, dates are rendered by `isoformat`, newlines in comments become
spaces. -/
def csvTransformed (db : Nat → String → PyVal) (entry : CSVEntry) (field : String) : PyVal :=
  let item := csvItem db entry field
  if field = "formats" then
    match item with
    | PyVal.strList l => PyVal.str (joinCommaSpace (l.map afterLastDotLower))
    | _ => item
  else if field = "authors" ∨ field = "tags" then
    match item with
    | PyVal.strList l => PyVal.str (joinCommaSpace l)
    | _ => item
  else if field = "isbn" then
    match item with
    | PyVal.str s => PyVal.str (String.mk (s.data.filter Char.isDigit))
    | _ => item
  else if field = "pubdate" ∨ field = "timestamp" then
    match item with
    | PyVal.date iso => PyVal.str iso
    | _ => item
  else if field = "comments" then
    match item with
    | PyVal.str s => PyVal.str (String.mk (stripNewlines s.data))
    | _ => item
  else item

/-- One rendered CSV cell (catalog.py lines 127-145): `None` renders as an
empty quoted string, everything else is normalized, quoted, and has its
embedded quotes doubled. -/
def csvRendered (db : Nat → String → PyVal) (entry : CSVEntry) (field : String) : String :=
  match csvItem db entry field with
  | PyVal.none => "\"\""
  | _ => "\"" ++ escapeQuotes (pyStr (csvTransformed db entry field)) ++ "\""

/-- Concatenation of a list of strings. -/
def concatStrings : List String → String
  | [] => ""
  | s :: ss => s ++ concatStrings ss

/-- Embedding of the CSV branch of `CSV_XML.run` (catalog.py lines
110-148) as the string written to the output file: the UTF-8 byte-order
mark, the header line, then the record loop appending one row per entry
(the inner loop builds `outstr` cell by cell). -/
def csvRun (db : Nat → String → PyVal) (fields : List String)
    (data : List CSVEntry) : String :=
  let header := "\xEF\xBB\xBF" ++ joinComma fields ++ "\n"
  data.foldl (fun out entry =>
    let outstr := fields.foldl (fun acc field => acc ++ [csvRendered db entry field]) []
    out ++ joinComma outstr ++ "\n") header

/-! ### Thumb-width validation (EPUB_MOBI.run) -/

/-- A Python float as the option validation needs it: a finite value
`num / 10^den10` kept as an exact decimal pair, `nan`, or a signed
infinity.  (The decimal strings the option can hold are exactly
representable this way; keeping integer components lets every comparison
be computed with integer arithmetic.) -/
inductive PyFloat where
  | finite : Int → Nat → PyFloat
  | nan : PyFloat
  | inf : PyFloat
  | ninf : PyFloat
  deriving DecidableEq, Repr

/-- The rational value of a finite `PyFloat`. -/
def pyFloatVal (num : Int) (den10 : Nat) : Rat := (num : Rat) / 10 ^ den10

/-- IEEE comparison `a < b` as Python evaluates it: `nan` compares false
against everything; finite values compare by cross-multiplied integers
(`pyFloatLt_finite` below shows this equals the rational comparison). -/
def pyFloatLt : PyFloat → PyFloat → Bool
  | PyFloat.nan, _ => false
  | _, PyFloat.nan => false
  | PyFloat.finite n1 e1, PyFloat.finite n2 e2 => decide (n1 * 10 ^ e2 < n2 * 10 ^ e1)
  | PyFloat.ninf, PyFloat.ninf => false
  | PyFloat.ninf, _ => true
  | _, PyFloat.ninf => false
  | PyFloat.inf, _ => false
  | PyFloat.finite _ _, PyFloat.inf => true

/-- Parses an (already sign-split, lowercased) keyword float. -/
def pyFloatKeyword : List Char → Option PyFloat
  | ['n', 'a', 'n'] => some PyFloat.nan
  | ['i', 'n', 'f'] => some PyFloat.inf
  | ['i', 'n', 'f', 'i', 'n', 'i', 't', 'y'] => some PyFloat.inf
  | _ => Option.none

/-- Parses the digit notation `digits [. digits] [(e|E) [sign] digits]`
(at least one digit before or after the point) into an exact decimal pair:
the mantissa is `natOfDigits (ip ++ fp) / 10^|fp|`, a positive exponent
multiplies the numerator, a negative one deepens the denominator. -/
def pyFloatDigits (cs : List Char) : Option (Int × Nat) :=
  let ip := cs.takeWhile Char.isDigit
  let rest1 := cs.dropWhile Char.isDigit
  let (fp, rest2) :=
    match rest1 with
    | '.' :: r => (r.takeWhile Char.isDigit, r.dropWhile Char.isDigit)
    | _ => ([], rest1)
  if ip.isEmpty ∧ fp.isEmpty then Option.none
  else
    let num : Nat := natOfDigits (ip ++ fp)
    match rest2 with
    | [] => some ((num : Int), fp.length)
    | e :: r =>
      if e = 'e' ∨ e = 'E' then
        let (epos, edigits) :=
          match r with
          | '+' :: r2 => (true, r2)
          | '-' :: r2 => (false, r2)
          | _ => (true, r)
        if edigits.isEmpty ∨ ¬ edigits.all Char.isDigit then Option.none
        else if epos then some (((num * 10 ^ natOfDigits edigits : Nat) : Int), fp.length)
        else some ((num : Int), fp.length + natOfDigits edigits)
      else Option.none

/-- Embedding of Python's `float(s)`: strips surrounding whitespace, takes
an optional sign, and accepts either a keyword (`nan`, `inf`, `infinity`,
case-insensitive) or decimal notation; everything else raises
`ValueError`, modelled as `none`. -/
def pyParseFloat (s : String) : Option PyFloat :=
  let t := (s.data.dropWhile Char.isWhitespace).reverse.dropWhile Char.isWhitespace |>.reverse
  let (neg, body) :=
    match t with
    | '+' :: r => (false, r)
    | '-' :: r => (true, r)
    | _ => (false, t)
  match pyFloatKeyword (body.map Char.toLower) with
  | some PyFloat.nan => some PyFloat.nan
  | some PyFloat.inf => some (if neg then PyFloat.ninf else PyFloat.inf)
  | _ =>
    match pyFloatDigits body with
    | some (n, e) => some (PyFloat.finite (if neg then -n else n) e)
    | Option.none => Option.none

/-- Decimal numeral zero-padded to (at least) two characters. -/
def pad2Zeros (n : Nat) : String :=
  let s := String.mk (natDigits n)
  if s.length < 2 then String.mk (List.replicate (2 - s.length) '0') ++ s
  else s

/-- `'%.2f'` of the nonnegative decimal `m / 10^e`: the rounded hundredths
count is `⌊m/10^e * 100 + 1/2⌋ = (200*m + 10^e) / (2*10^e)`, with exact
half-up rounding standing in for binary-float rounding (they agree on the
values these theorems evaluate). -/
def format2Pos (m : Nat) (e : Nat) : String :=
  let n : Nat := (m * 200 + 10 ^ e) / (2 * 10 ^ e)
  String.mk (natDigits (n / 100)) ++ "." ++ pad2Zeros (n % 100)

/-- `'%.2f' % v`. -/
def pyFormat2f : PyFloat → String
  | PyFloat.nan => "nan"
  | PyFloat.inf => "inf"
  | PyFloat.ninf => "-inf"
  | PyFloat.finite num e =>
    if num < 0 then "-" ++ format2Pos (-num).toNat e else format2Pos num.toNat e

/-- Embedding of the thumb-width validation of `EPUB_MOBI.run` (catalog.py
lines 4973-4984, with `THUMB_SMALLEST = "1.0"` and `THUMB_LARGEST = "2.0"`
from lines 554-555): each `float(...)` re-parses the current string, a
parse failure takes the `except` branch to `"1.0"`, and the final value is
re-rendered through `'%.2f'`. -/
def validateThumbWidth (tw : String) : String :=
  match pyParseFloat tw with
  | Option.none => "1.0"
  | some v =>
    let tw1 := if pyFloatLt v (PyFloat.finite 1 0) then "1.0" else tw
    match pyParseFloat tw1 with
    | Option.none => "1.0"
    | some v1 =>
      let tw2 := if pyFloatLt (PyFloat.finite 2 0) v1 then "2.0" else tw1
      match pyParseFloat tw2 with
      | Option.none => "1.0"
      | some v2 => pyFormat2f v2

example : generateSortTitle "The 12 Monkeys" = "        12 Monkeys" := by decide
example : generateSortTitle "2001: A Space Odyssey" =
    "      2001: A Space Odyssey" := by decide

/-! ### The Recently Added grouping (`generateHTMLByDateAdded`)

`generateHTMLByDateAdded` (catalog.py lines 2131-2395) works on naive
Python `datetime.datetime` timestamps.  The `datetime` module is external
to the repository, so its arithmetic is modelled from its documented
semantics (the proleptic Gregorian calendar): `PDate` carries the six
fields Python's `datetime._cmp` compares, `toordinal` is
`date.toordinal()` (`_ymd2ord`: days-before-year by the leap-year rule
plus the days-before-month table plus the day), datetimes compare
field-lexicographically, and subtraction yields a `timedelta` whose
`.days` is the floor of the total difference in seconds divided by
86400. -/

/-- Modelled from the spec: the six fields of a naive Python
`datetime.datetime` (microseconds, always zero for library timestamps,
are omitted). -/
structure PDate where
  year : Nat
  month : Nat
  day : Nat
  hour : Nat
  minute : Nat
  second : Nat
deriving DecidableEq, Repr

/-- Modelled from the spec: Python's `calendar`/`datetime` leap-year rule
`year % 4 == 0 and (year % 100 != 0 or year % 400 == 0)`. -/
def isLeap (y : Nat) : Bool :=
  y % 4 == 0 && (y % 100 != 0 || y % 400 == 0)

/-- Modelled from the spec: `datetime._days_in_month`. -/
def daysInMonth (y m : Nat) : Nat :=
  if m == 2 then (if isLeap y then 29 else 28)
  else if m == 4 || m == 6 || m == 9 || m == 11 then 30
  else 31

/-- Modelled from the spec: `datetime._days_before_month` (the
`_DAYS_BEFORE_MONTH` prefix-sum table with the leap adjustment),
presented as a recursion so that `daysBeforeMonth y (m+1) =
daysBeforeMonth y m + daysInMonth y m` holds definitionally. -/
def daysBeforeMonth (y : Nat) : Nat → Nat
  | 0 => 0
  | 1 => 0
  | m + 2 => daysBeforeMonth y (m + 1) + daysInMonth y (m + 1)

/-- Modelled from the spec: `datetime._days_before_year`. -/
def daysBeforeYear (y : Nat) : Nat :=
  365 * (y - 1) + (y - 1) / 4 - (y - 1) / 100 + (y - 1) / 400

/-- Modelled from the spec: `date.toordinal()` (`datetime._ymd2ord`). -/
def toordinal (d : PDate) : Nat :=
  daysBeforeYear d.year + daysBeforeMonth d.year d.month + d.day

/-- The timestamp as a second count from the proleptic-Gregorian epoch;
`a - b` for two naive datetimes is a `timedelta` of
`toSec a - toSec b` seconds. -/
def toSec (d : PDate) : Int :=
  (toordinal d : Int) * 86400 + d.hour * 3600 + d.minute * 60 + d.second

/-- Modelled from the spec: `(a - b).days` — Python's `timedelta.days`
floors the total seconds over 86400 (toward minus infinity). -/
def deltaDays (a b : PDate) : Int :=
  Int.fdiv (toSec a - toSec b) 86400

/-- Modelled from the spec: `datetime._cmp`, which compares the field
tuples lexicographically; `pdLt a b` is `a < b`. -/
def pdLt (a b : PDate) : Bool :=
  decide (a.year < b.year) ||
    (a.year == b.year && (decide (a.month < b.month) ||
      (a.month == b.month && (decide (a.day < b.day) ||
        (a.day == b.day && (decide (a.hour < b.hour) ||
          (a.hour == b.hour && (decide (a.minute < b.minute) ||
            (a.minute == b.minute && decide (a.second < b.second))))))))))

/-- A calendar-valid timestamp: the constraints `datetime.datetime(...)`
enforces on its arguments (year at least 1, month in 1..12, day in
1..days-in-month, time-of-day fields in range). -/
def validDate (d : PDate) : Prop :=
  1 ≤ d.year ∧ 1 ≤ d.month ∧ d.month ≤ 12 ∧
    1 ≤ d.day ∧ d.day ≤ daysInMonth d.year d.month ∧
    d.hour ≤ 23 ∧ d.minute ≤ 59 ∧ d.second ≤ 59

instance (d : PDate) : Decidable (validDate d) := by
  unfold validDate
  infer_instance

/-- `today_time = nowf().replace(hour=23, minute=59, second=59)`
(catalog.py line 2349). -/
def todayTime (now : PDate) : PDate :=
  { now with hour := 23, minute := 59, second := 59 }

/-- A book as seen by `generateHTMLByDateAdded`: only the identity and
the `timestamp` field (a naive datetime from the database) matter for
the date grouping. -/
structure DBook where
  id : Nat
  title : String
  author : String
  timestamp : PDate
deriving DecidableEq, Repr

/-- The comparison `sorted(..., reverse=True)` orders by: `a` may come
before `b` exactly when `a`'s timestamp is not strictly older, i.e. not
`pdLt a.timestamp b.timestamp`. -/
def tsGe (a b : DBook) : Prop := ¬ pdLt a.timestamp b.timestamp = true

instance : DecidableRel tsGe := fun _ _ => instDecidableNot

/-- `sorted(self.booksByTitle, key=lambda x:(x['timestamp'],
x['timestamp']), reverse=True)` (catalog.py lines 2342-2346 and
2370-2371): a stable sort into reverse-chronological order.  Python's
stable `sorted` with `reverse=True` is embedded as an insertion sort
that inserts each element before the first strictly older one. -/
def sortedByTimestampDesc (books : List DBook) : List DBook :=
  books.insertionSort tsGe

/-- `DATE_RANGE = [30]` (catalog.py line 916). -/
def DATE_RANGE : List Nat := [30]

/-- The `Last 30 days` date-range bucket (catalog.py lines 2348-2366):
with `DATE_RANGE = [30]` the enumeration runs once with
`date_range_limit = 30`, and the inner `for book in
self.booksByDateRange` loop appends while `delta.days <= 30` and
`break`s at the first older book — a `takeWhile` over the
reverse-chronologically sorted list.  (The trailing
`date_range_list = [book]` rebind only feeds a further iteration, of
which there is none.) -/
def dateRangeBucket (today : PDate) (books : List DBook) : List DBook :=
  (sortedByTimestampDesc books).takeWhile
    (fun b => decide (deltaDays today b.timestamp ≤ (30 : Int)))

/-- The month-bucket loop of catalog.py lines 2374-2385: walk the
reverse-chronologically sorted books carrying `current_date` (seeded
with `date.fromordinal(1)`, i.e. year 1 month 1) and the accumulating
`this_months_list`; when a book's month or year differs from
`current_date`, flush the list through `add_books_to_HTML_by_month`
(which emits a month section only if the list is non-empty, labelled
`bda_<year>-<month>` from `current_date`, lines 2137-2151) and restart
it from that book; flush once more at the end (line 2385).  Each
emitted bucket is `(year, month, books of that month in list order)`. -/
def monthBucketsGo : List DBook → Nat → Nat → List DBook →
    List (Nat × Nat × List DBook)
  | [], cy, cm, acc => if acc.isEmpty then [] else [(cy, cm, acc.reverse)]
  | b :: rest, cy, cm, acc =>
    if b.timestamp.month != cm || b.timestamp.year != cy then
      (if acc.isEmpty then [] else [(cy, cm, acc.reverse)]) ++
        monthBucketsGo rest b.timestamp.year b.timestamp.month [b]
    else
      monthBucketsGo rest cy cm (b :: acc)

/-- The month buckets of `generateHTMLByDateAdded`. -/
def monthBuckets (books : List DBook) : List (Nat × Nat × List DBook) :=
  monthBucketsGo (sortedByTimestampDesc books) 1 1 []

/-! ### Character and numeral lemmas -/

theorem charLt_of_toNat_lt {a b : Char} (h : a.toNat < b.toNat) : a < b := by
  rw [Char.lt_def]; exact h

theorem toNat_ofNat_valid (m : Nat) (h : m < 55296) : (Char.ofNat m).toNat = m := by
  have hv : m.isValidChar := Or.inl h
  simp [Char.ofNat, hv, Char.ofNatAux, Char.toNat, UInt32.toNat, BitVec.toNat_ofNat]

theorem toUpper_of_lt97 (c : Char) (h : c.toNat < 97) : c.toUpper = c := by
  simp only [Char.toUpper]
  rw [if_neg]; omega

theorem toLower_of_lt65 (c : Char) (h : c.toNat < 65) : c.toLower = c := by
  simp only [Char.toLower]
  rw [if_neg]; omega

theorem isAlphaAZ_toNat {c : Char} (h : isAlphaAZ c = true) :
    (97 ≤ c.toNat ∧ c.toNat ≤ 122) ∨ (65 ≤ c.toNat ∧ c.toNat ≤ 90) := by
  simp [isAlphaAZ, Char.le_def] at h
  rcases h with h | h
  · exact Or.inl ⟨h.1, h.2⟩
  · exact Or.inr ⟨h.1, h.2⟩

theorem toUpper_alpha_range {c : Char} (h : isAlphaAZ c = true) :
    65 ≤ c.toUpper.toNat ∧ c.toUpper.toNat ≤ 90 := by
  rcases isAlphaAZ_toNat h with ⟨h1, h2⟩ | ⟨h1, h2⟩
  · simp only [Char.toUpper]
    rw [if_pos (by omega)]
    rw [toNat_ofNat_valid _ (by omega)]
    omega
  · rw [toUpper_of_lt97 c (by omega)]
    omega

theorem natDigitsAux_irrel : ∀ f1 f2 n, n < f1 → n < f2 →
    natDigitsAux f1 n = natDigitsAux f2 n := by
  intro f1
  induction f1 with
  | zero => intro f2 n h; omega
  | succ f ih =>
    intro f2 n h1 h2
    cases f2 with
    | zero => omega
    | succ f' =>
      simp only [natDigitsAux]
      split
      · rfl
      · rename_i hn
        have hd : n / 10 < n := Nat.div_lt_self (by omega) (by omega)
        rw [ih f' (n / 10) (by omega) (by omega)]

theorem natDigits_unfold (n : Nat) : natDigits n =
    if n < 10 then [Char.ofNat (48 + n)]
    else natDigits (n / 10) ++ [Char.ofNat (48 + n % 10)] := by
  show natDigitsAux (n + 1) n = _
  rw [natDigitsAux]
  split
  · rfl
  · rename_i hn
    have hd : n / 10 < n := Nat.div_lt_self (by omega) (by omega)
    rw [natDigitsAux_irrel n (n / 10 + 1) (n / 10) (by omega) (by omega)]
    rfl

theorem digit_char_toNat (m : Nat) (h : m < 10) : (Char.ofNat (48 + m)).toNat = 48 + m :=
  toNat_ofNat_valid _ (by omega)

theorem natDigits_ne_nil (n : Nat) : natDigits n ≠ [] := by
  rw [natDigits_unfold]
  split <;> simp

theorem natDigits_all_digit (n : Nat) :
    ∀ c ∈ natDigits n, 48 ≤ c.toNat ∧ c.toNat ≤ 57 := by
  induction n using Nat.strong_induction_on with
  | _ n ih =>
    rw [natDigits_unfold]
    split
    · rename_i h
      intro c hc
      simp at hc
      subst hc
      rw [digit_char_toNat n h]
      omega
    · rename_i h
      intro c hc
      simp at hc
      rcases hc with hc | hc
      · exact ih (n / 10) (Nat.div_lt_self (by omega) (by omega)) c hc
      · subst hc
        rw [digit_char_toNat (n % 10) (Nat.mod_lt n (by omega))]
        omega

theorem natDigits_length_le (n : Nat) : ∀ k, 1 ≤ k → n < 10 ^ k →
    (natDigits n).length ≤ k := by
  induction n using Nat.strong_induction_on with
  | _ n ih =>
    intro k hk hn
    rw [natDigits_unfold]
    split
    · simpa using hk
    · rename_i h
      have hk2 : 2 ≤ k := by
        by_contra hc
        have : k = 1 := by omega
        subst this
        simp at hn
        omega
      have hpow : 10 ^ k = 10 ^ (k - 1) * 10 := by
        rw [← pow_succ]; congr 1; omega
      have hq : n / 10 < 10 ^ (k - 1) := by
        rw [Nat.div_lt_iff_lt_mul (by omega)]
        omega
      have := ih (n / 10) (Nat.div_lt_self (by omega) (by omega)) (k - 1) (by omega) hq
      simp only [List.length_append, List.length_cons, List.length_nil]
      omega

theorem natDigits_lt_pow_length (n : Nat) : n < 10 ^ (natDigits n).length := by
  induction n using Nat.strong_induction_on with
  | _ n ih =>
    rw [natDigits_unfold]
    split
    · rename_i h
      simpa using h
    · rename_i h
      have := ih (n / 10) (Nat.div_lt_self (by omega) (by omega))
      simp only [List.length_append, List.length_cons, List.length_nil]
      have h2 : n < 10 * (n / 10) + 10 := by omega
      calc n < 10 * (n / 10) + 10 := h2
        _ ≤ 10 * 10 ^ (natDigits (n / 10)).length := by
            have : n / 10 + 1 ≤ 10 ^ (natDigits (n / 10)).length := this
            omega
        _ = 10 ^ ((natDigits (n / 10)).length + 1) := by ring
        _ ≤ 10 ^ ((natDigits (n / 10)).length + 1 + 0) := by simp

/-! ### Lexicographic comparison lemmas -/

theorem lexLt_cons_of_lt {a b : Char} (h : a.toNat < b.toNat) (as bs : List Char) :
    lexLt (a :: as) (b :: bs) = true := by
  simp only [lexLt]
  rw [if_pos (charLt_of_toNat_lt h)]

theorem lexLt_append_same (a : List Char) (s t : List Char) :
    lexLt (a ++ s) (a ++ t) = lexLt s t := by
  induction a with
  | nil => simp
  | cons c cs ih =>
    simp only [List.cons_append, lexLt]
    rw [if_neg (lt_irrefl c), if_neg (lt_irrefl c)]
    exact ih

theorem lexLt_append_of_eqlen : ∀ (a b s t : List Char), a.length = b.length →
    lexLt a b = true → lexLt (a ++ s) (b ++ t) = true := by
  intro a
  induction a with
  | nil =>
    intro b s t hlen h
    cases b with
    | nil => simp [lexLt] at h
    | cons _ _ => simp at hlen
  | cons c cs ih =>
    intro b s t hlen h
    cases b with
    | nil => simp at hlen
    | cons d ds =>
      simp only [lexLt] at h
      simp only [List.cons_append, lexLt]
      split at h
      · rename_i hcd
        rw [if_pos hcd]
      · split at h
        · simp at h
        · rename_i h1 h2
          rw [if_neg h1, if_neg h2]
          exact ih ds s t (by simpa using hlen) h

theorem natDigits_lex (n2 : Nat) : ∀ n1, n1 < n2 →
    (natDigits n1).length = (natDigits n2).length →
    lexLt (natDigits n1) (natDigits n2) = true := by
  induction n2 using Nat.strong_induction_on with
  | _ n2 ih =>
    intro n1 hlt hlen
    by_cases h2 : n2 < 10
    · have h1 : n1 < 10 := by omega
      rw [natDigits_unfold n1, natDigits_unfold n2, if_pos h1, if_pos h2]
      apply lexLt_cons_of_lt
      rw [digit_char_toNat n1 h1, digit_char_toNat n2 h2]
      omega
    · by_cases h1 : n1 < 10
      · exfalso
        rw [natDigits_unfold n1, natDigits_unfold n2, if_pos h1, if_neg h2] at hlen
        simp only [List.length_cons, List.length_nil, List.length_append] at hlen
        have hz : (natDigits (n2 / 10)).length = 0 := by omega
        exact natDigits_ne_nil _ (List.length_eq_zero.mp hz)
      · rw [natDigits_unfold n1, natDigits_unfold n2, if_neg h1, if_neg h2]
        rw [natDigits_unfold n1, natDigits_unfold n2, if_neg h1, if_neg h2] at hlen
        simp only [List.length_append, List.length_cons, List.length_nil] at hlen
        have hlen' : (natDigits (n1 / 10)).length = (natDigits (n2 / 10)).length := by omega
        have hqle : n1 / 10 ≤ n2 / 10 := Nat.div_le_div_right (by omega)
        rcases Nat.lt_or_ge (n1 / 10) (n2 / 10) with hq | hq
        · exact lexLt_append_of_eqlen _ _ _ _ hlen'
            (ih (n2 / 10) (Nat.div_lt_self (by omega) (by omega)) (n1 / 10) hq hlen')
        · have hqeq : n1 / 10 = n2 / 10 := by omega
          rw [hqeq, lexLt_append_same]
          apply lexLt_cons_of_lt
          rw [digit_char_toNat (n1 % 10) (Nat.mod_lt n1 (by omega)),
              digit_char_toNat (n2 % 10) (Nat.mod_lt n2 (by omega))]
          omega

/-! ### Padded-numeral lemmas -/

theorem pyFormat10_0f_data (n : Nat) : (pyFormat10_0f n).data =
    List.replicate (10 - (natDigits n).length) ' ' ++ natDigits n := by
  unfold pyFormat10_0f
  split
  · rfl
  · rename_i h
    have hz : 10 - (natDigits n).length = 0 := by omega
    rw [hz]
    rfl

theorem pyFormat10_0f_length (n : Nat) (h : n < 10 ^ 10) :
    (pyFormat10_0f n).data.length = 10 := by
  rw [pyFormat10_0f_data]
  have hle := natDigits_length_le n 10 (by omega) h
  simp only [List.length_append, List.length_replicate]
  omega

theorem pyFormat10_0f_mem (n : Nat) :
    ∀ c ∈ (pyFormat10_0f n).data, 32 ≤ c.toNat ∧ c.toNat ≤ 57 := by
  rw [pyFormat10_0f_data]
  intro c hc
  rcases List.mem_append.mp hc with hc | hc
  · rw [List.eq_of_mem_replicate hc]
    constructor <;> decide
  · have := natDigits_all_digit n c hc
    omega

theorem pyFormat10_0f_ne_nil (n : Nat) : (pyFormat10_0f n).data ≠ [] := by
  rw [pyFormat10_0f_data]
  intro h
  have := List.append_eq_nil.mp h
  exact natDigits_ne_nil n this.2

theorem pyFormat10_0f_lt (n1 n2 : Nat) (h12 : n1 < n2) (h : n2 < 10 ^ 10) :
    lexLt (pyFormat10_0f n1).data (pyFormat10_0f n2).data = true := by
  rw [pyFormat10_0f_data, pyFormat10_0f_data]
  have hL2pos : 1 ≤ (natDigits n2).length :=
    List.length_pos.mpr (natDigits_ne_nil n2)
  have hL2le : (natDigits n2).length ≤ 10 := natDigits_length_le n2 10 (by omega) h
  have hL1le2 : (natDigits n1).length ≤ (natDigits n2).length := by
    by_contra hc
    push_neg at hc
    have h1 : ¬ n1 < 10 ^ (natDigits n2).length := by
      intro hlt
      have := natDigits_length_le n1 (natDigits n2).length (by omega) hlt
      omega
    have h2 := natDigits_lt_pow_length n2
    omega
  rcases Nat.lt_or_ge (natDigits n1).length (natDigits n2).length with hL | hL
  · have hsplitrep : List.replicate (10 - (natDigits n1).length) ' ' =
        List.replicate (10 - (natDigits n2).length) ' ' ++
        List.replicate ((natDigits n2).length - (natDigits n1).length) ' ' := by
      rw [← List.replicate_add]
      congr 1
      omega
    rw [hsplitrep, List.append_assoc, lexLt_append_same]
    have hrep : List.replicate ((natDigits n2).length - (natDigits n1).length) ' ' =
        ' ' :: List.replicate ((natDigits n2).length - (natDigits n1).length - 1) ' ' := by
      conv_lhs => rw [show (natDigits n2).length - (natDigits n1).length =
        ((natDigits n2).length - (natDigits n1).length - 1) + 1 from by omega]
      rw [List.replicate_succ]
    rw [hrep, List.cons_append]
    obtain ⟨d, dl, hd⟩ := List.exists_cons_of_ne_nil (natDigits_ne_nil n2)
    have hdb : 48 ≤ d.toNat ∧ d.toNat ≤ 57 := natDigits_all_digit n2 d (by rw [hd]; simp)
    rw [hd]
    apply lexLt_cons_of_lt
    have hsp : (' ' : Char).toNat = 32 := by decide
    omega
  · have hLeq : (natDigits n1).length = (natDigits n2).length := by omega
    rw [hLeq, lexLt_append_same]
    exact natDigits_lex n2 n1 h12 hLeq

/-! ### Word-transformation lemmas -/

theorem isDigit_of_bounds {c : Char} (h : 48 ≤ c.toNat ∧ c.toNat ≤ 57) :
    c.isDigit = true := by
  simp [Char.isDigit, Char.le_def]
  exact ⟨h.1, h.2⟩

theorem bounds_of_isDigit {c : Char} (h : c.isDigit = true) :
    48 ≤ c.toNat ∧ c.toNat ≤ 57 := by
  simp [Char.isDigit, Char.le_def] at h
  exact ⟨h.1, h.2⟩

theorem capFirst_of_le57 (s : String) (h : ∀ c ∈ s.data, c.toNat ≤ 57) :
    capFirst s = s := by
  cases s with
  | mk data =>
    cases data with
    | nil => rfl
    | cons c cs =>
      show String.mk (c.toUpper :: cs.map Char.toLower) = String.mk (c :: cs)
      have hc : c.toNat ≤ 57 := h c (List.mem_cons_self c cs)
      rw [toUpper_of_lt97 c (by omega)]
      have hmap : cs.map Char.toLower = cs := by
        rw [List.map_congr_left (g := id) ?_, List.map_id]
        intro a ha
        refine toLower_of_lt65 a ?_
        have := h a (List.mem_cons_of_mem c ha)
        omega
      rw [hmap]

theorem numTransform_digits (ds : List Char) (hne : ds ≠ [])
    (hd : ∀ c ∈ ds, 48 ≤ c.toNat ∧ c.toNat ≤ 57) :
    numTransform (String.mk ds) = pyFormat10_0f (natOfDigits ds) := by
  unfold numTransform
  have hfilter : ds.filter (fun c => c ≠ ',') = ds := by
    rw [List.filter_eq_self]
    intro c hc
    have := hd c hc
    have hcomma : (',' : Char).toNat = 44 := by decide
    simp only [ne_eq, decide_eq_true_eq]
    intro hEq
    rw [hEq] at this
    omega
  have htake : ds.takeWhile Char.isDigit = ds :=
    List.takeWhile_eq_self_iff.mpr (fun c hc => isDigit_of_bounds (hd c hc))
  have hdrop : ds.dropWhile Char.isDigit = [] :=
    List.dropWhile_eq_nil_iff.mpr (fun c hc => isDigit_of_bounds (hd c hc))
  show pyFormat10_0f (natOfDigits ((String.mk ds).data.filter _ |>.takeWhile _)) ++
      String.mk ((String.mk ds).data.filter _ |>.dropWhile _) = _
  rw [show (String.mk ds).data = ds from rfl, hfilter, htake, hdrop]
  show pyFormat10_0f (natOfDigits ds) ++ String.mk [] = _
  show String.mk ((pyFormat10_0f (natOfDigits ds)).data ++ []) = _
  simp

theorem transformFirstSlash_le57 (w1 : String) (hne : w1.data ≠ [])
    (hb : ∀ c ∈ w1.data, c.toNat ≤ 57) :
    transformFirstSlash w1 = [capFirst w1] := by
  unfold transformFirstSlash
  obtain ⟨y, tl, hy⟩ := List.exists_cons_of_ne_nil hne
  have hyb : y.toNat ≤ 57 := hb y (by rw [hy]; simp)
  rw [hy]
  show (if letter_or_symbol y ≠ String.mk [y] ∧
      ('A' < y ∨ ((57 : Nat) < y.toNat ∧ y.toNat < 65)) then
    ["/", capFirst w1] else [capFirst w1]) = [capFirst w1]
  rw [if_neg ?_]
  rintro ⟨-, h2 | h2⟩
  · rw [Char.lt_def] at h2
    have : (65 : Nat) < y.toNat := h2
    omega
  · omega

theorem transformFirstWord_digits (ds : List Char) (hne : ds ≠ [])
    (hd : ∀ c ∈ ds, 48 ≤ c.toNat ∧ c.toNat ≤ 57) :
    transformFirstWord (String.mk ds) = [pyFormat10_0f (natOfDigits ds)] := by
  cases ds with
  | nil => exact absurd rfl hne
  | cons c0 cs =>
    show transformFirstWordCore (c0 :: cs) = _
    unfold transformFirstWordCore
    have hc0 : c0.isDigit = true := isDigit_of_bounds (hd c0 (by simp))
    simp only [hc0, if_true]
    rw [numTransform_digits (c0 :: cs) hne hd]
    rw [transformFirstSlash_le57 _ (pyFormat10_0f_ne_nil _)
      (fun c hc => (pyFormat10_0f_mem _ c hc).2)]
    rw [capFirst_of_le57 _ (fun c hc => (pyFormat10_0f_mem _ c hc).2)]

theorem transformFirstWord_alpha (c : Char) (cw : List Char)
    (hc : isAlphaAZ c = true) :
    transformFirstWord (String.mk (c :: cw)) =
      [String.mk (c.toUpper :: cw.map Char.toLower)] := by
  show transformFirstWordCore (c :: cw) = _
  unfold transformFirstWordCore
  have hrange := isAlphaAZ_toNat hc
  have hcd : c.isDigit = false := by
    by_contra hdig
    simp only [Bool.not_eq_false] at hdig
    have hb := bounds_of_isDigit hdig
    rcases hrange with ⟨h1, h2⟩ | ⟨h1, h2⟩ <;> omega
  simp only [hcd, if_false]
  unfold transformFirstSlash
  have hlos : letter_or_symbol c = String.mk [c] := by
    unfold letter_or_symbol
    rw [if_pos hc]
  show (if letter_or_symbol c ≠ String.mk [c] ∧
      ('A' < c ∨ ((57 : Nat) < c.toNat ∧ c.toNat < 65)) then
    ["/", capFirst (String.mk (c :: cw))]
  else [capFirst (String.mk (c :: cw))]) = _
  simp only [hlos, ne_eq, not_true_eq_false, false_and, if_false]
  rfl

/-! ### Sort-key head lemmas -/

theorem joinSpace_data_cons (w : String) (ws : List String) :
    ∃ tl, (joinSpace (w :: ws)).data = w.data ++ tl := by
  cases ws with
  | nil => exact ⟨[], by simp [joinSpace]⟩
  | cons x xs =>
    refine ⟨' ' :: (joinSpace (x :: xs)).data, ?_⟩
    show (w ++ " " ++ joinSpace (x :: xs)).data = _
    show (w.data ++ ' ' :: []) ++ (joinSpace (x :: xs)).data = _
    simp

theorem gst_digit_data (t : String) (ds : List Char) (ws : List String)
    (hsplit : pySplit (title_sort t) = String.mk ds :: ws)
    (hne : ds ≠ []) (hd : ∀ c ∈ ds, 48 ≤ c.toNat ∧ c.toNat ≤ 57) :
    ∃ tl, (generateSortTitle t).data =
      (pyFormat10_0f (natOfDigits ds)).data ++ tl := by
  have h1 : generateSortTitle t =
      joinSpace (transformFirstWord (String.mk ds) ++ ws.map transformRestWord) := by
    unfold generateSortTitle
    rw [hsplit]
  rw [h1, transformFirstWord_digits ds hne hd]
  exact joinSpace_data_cons _ _

theorem gst_alpha_data (t : String) (c : Char) (cw : List Char) (ws : List String)
    (hsplit : pySplit (title_sort t) = String.mk (c :: cw) :: ws)
    (hc : isAlphaAZ c = true) :
    ∃ tl, (generateSortTitle t).data = c.toUpper :: tl := by
  have h1 : generateSortTitle t =
      joinSpace (transformFirstWord (String.mk (c :: cw)) ++ ws.map transformRestWord) := by
    unfold generateSortTitle
    rw [hsplit]
  rw [h1, transformFirstWord_alpha c cw hc]
  obtain ⟨tl, htl⟩ := joinSpace_data_cons (String.mk (c.toUpper :: cw.map Char.toLower))
    (ws.map transformRestWord)
  exact ⟨cw.map Char.toLower ++ tl, by rw [List.singleton_append, htl]; rfl⟩

/-! ### Claim C4 -/

/-- C4, counterexample: `generateSortTitle` keys do not always compare
numerically for titles with leading numbers.  The title `"10000000000"`
(eleven digits, overflowing the 10-character field of `'%10.0f'`) receives a
key that sorts lexicographically before the key of `"9999999999"`, although
its numeric value is larger. -/
theorem C4_counterexample :
    strLt (generateSortTitle "10000000000") (generateSortTitle "9999999999") = true ∧
    (9999999999 : Nat) < 10000000000 := by
  constructor
  · decide
  · decide

/-- C4 (amended): `generateSortTitle` removes leading stop words, capitalizes
the first word, and replaces every word starting with a digit by its numeric
value right-aligned in a 10-character field with commas removed and the
non-digit suffix preserved; consequently, for every pair of titles whose
leading numbers have **at most 10 digits** the synthesized keys compare
numerically, and such keys order ahead of the key of any title whose first
sort word begins with a letter.  (The 10-digit bound is forced by
`C4_counterexample`: an 11-digit number overflows the field.) -/
theorem C4_generateSortTitle_numeric_keys
    (t1 t2 t3 : String) (ds1 ds2 : List Char) (ws1 ws2 ws3 : List String)
    (c : Char) (cw : List Char)
    (h1 : pySplit (title_sort t1) = String.mk ds1 :: ws1)
    (h2 : pySplit (title_sort t2) = String.mk ds2 :: ws2)
    (h3 : pySplit (title_sort t3) = String.mk (c :: cw) :: ws3)
    (hne1 : ds1 ≠ []) (hd1 : ∀ c' ∈ ds1, 48 ≤ c'.toNat ∧ c'.toNat ≤ 57)
    (hne2 : ds2 ≠ []) (hd2 : ∀ c' ∈ ds2, 48 ≤ c'.toNat ∧ c'.toNat ≤ 57)
    (hc : isAlphaAZ c = true)
    (hlt : natOfDigits ds1 < natOfDigits ds2)
    (hub : natOfDigits ds2 < 10 ^ 10) :
    strLt (generateSortTitle t1) (generateSortTitle t2) = true ∧
    strLt (generateSortTitle t2) (generateSortTitle t3) = true := by
  obtain ⟨tl1, e1⟩ := gst_digit_data t1 ds1 ws1 h1 hne1 hd1
  obtain ⟨tl2, e2⟩ := gst_digit_data t2 ds2 ws2 h2 hne2 hd2
  obtain ⟨tl3, e3⟩ := gst_alpha_data t3 c cw ws3 h3 hc
  constructor
  · show lexLt _ _ = true
    rw [e1, e2]
    apply lexLt_append_of_eqlen
    · rw [pyFormat10_0f_length _ (lt_trans hlt hub), pyFormat10_0f_length _ hub]
    · exact pyFormat10_0f_lt _ _ hlt hub
  · show lexLt _ _ = true
    rw [e2, e3]
    obtain ⟨y, ytl, hy⟩ :=
      List.exists_cons_of_ne_nil (pyFormat10_0f_ne_nil (natOfDigits ds2))
    rw [hy, List.cons_append]
    apply lexLt_cons_of_lt
    have h57 := (pyFormat10_0f_mem _ y (by rw [hy]; simp)).2
    have h65 := (toUpper_alpha_range hc).1
    omega

/-- C4, witness: the amended theorem applied to the concrete titles
`"12 Monkeys"`, `"9999999999"` and `"Apple"`. -/
theorem C4_witness :
    strLt (generateSortTitle "12 Monkeys") (generateSortTitle "9999999999") = true ∧
    strLt (generateSortTitle "9999999999") (generateSortTitle "Apple") = true :=
  C4_generateSortTitle_numeric_keys "12 Monkeys" "9999999999" "Apple"
    ['1', '2'] ['9', '9', '9', '9', '9', '9', '9', '9', '9', '9']
    ["Monkeys"] [] [] 'A' ['p', 'p', 'l', 'e']
    (by decide) (by decide) (by decide) (by decide) (by decide)
    (by decide) (by decide) (by decide) (by decide) (by decide)

/-! ### Claim C5: letter buckets of the Titles section -/

theorem titleBucketsGo_join (rest : List TBook) : ∀ cur,
    ((titleBucketsGo cur rest).map Prod.snd).flatten = cur.2 ++ rest := by
  induction rest with
  | nil => intro cur; simp [titleBucketsGo]
  | cons b bs ih =>
    intro cur
    unfold titleBucketsGo
    split
    · simp [ih]
    · rw [ih]
      simp

theorem titleBucketsGo_labels (rest : List TBook) : ∀ cur,
    cur.2 ≠ [] → (∀ b ∈ cur.2, bookLetter b = cur.1) →
    ∀ p ∈ titleBucketsGo cur rest, p.2 ≠ [] ∧ ∀ b ∈ p.2, bookLetter b = p.1 := by
  induction rest with
  | nil =>
    intro cur h1 h2 p hp
    simp [titleBucketsGo] at hp
    subst hp
    exact ⟨h1, h2⟩
  | cons b bs ih =>
    intro cur h1 h2 p hp
    unfold titleBucketsGo at hp
    split at hp
    · rcases List.mem_cons.mp hp with hp | hp
      · subst hp; exact ⟨h1, h2⟩
      · exact ih (bookLetter b, [b]) (by simp) (by simp) p hp
    · rename_i hb
      push_neg at hb
      refine ih (cur.1, cur.2 ++ [b]) (by simp) ?_ p hp
      intro x hx
      rcases List.mem_append.mp hx with hx | hx
      · exact h2 x hx
      · simp at hx; subst hx; exact hb

theorem titleBucketsGo_head (rest : List TBook) : ∀ cur,
    ∃ l tl, titleBucketsGo cur rest = (cur.1, l) :: tl := by
  induction rest with
  | nil => intro cur; exact ⟨cur.2, [], by simp [titleBucketsGo]⟩
  | cons b bs ih =>
    intro cur
    unfold titleBucketsGo
    split
    · exact ⟨cur.2, titleBucketsGo (bookLetter b, [b]) bs, by simp⟩
    · exact ih (cur.1, cur.2 ++ [b])

theorem titleBucketsGo_chain (rest : List TBook) : ∀ cur,
    List.Chain' (fun p q => p.1 ≠ q.1) (titleBucketsGo cur rest) := by
  induction rest with
  | nil => intro cur; simp [titleBucketsGo]
  | cons b bs ih =>
    intro cur
    unfold titleBucketsGo
    split
    · rename_i hb
      obtain ⟨l, tl, htl⟩ := titleBucketsGo_head bs (bookLetter b, [b])
      rw [htl]
      refine List.Chain'.cons ?_ (htl ▸ ih (bookLetter b, [b]))
      exact fun h => hb h.symm
    · exact ih (cur.1, cur.2 ++ [b])

/-- A book whose sort key starts with a non-letter. -/
def symbBook (b : TBook) : Prop := ¬ isAlphaAZ (firstChar b.title_sort) = true

instance (b : TBook) : Decidable (symbBook b) := by unfold symbBook; infer_instance

theorem bookLetter_symbols_iff (b : TBook) :
    bookLetter b = "Symbols" ↔ symbBook b := by
  unfold bookLetter letter_or_symbol symbBook
  split
  · rename_i h
    constructor
    · intro heq
      exfalso
      have hlen : (String.mk [firstChar b.title_sort]).length =
          ("Symbols" : String).length := by rw [heq]
      have h7 : ("Symbols" : String).length = 7 := by decide
      rw [String.length_mk, h7] at hlen
      simp at hlen
    · intro hs
      exact absurd h hs
  · rename_i h
    constructor
    · intro _
      exact h
    · intro _
      rfl

theorem titleBucketsGo_symb_none (rest : List TBook) : ∀ cur,
    cur.1 ≠ "Symbols" → (∀ b ∈ rest, ¬ symbBook b) →
    (titleBucketsGo cur rest).countP (fun p => p.1 = "Symbols") = 0 := by
  induction rest with
  | nil =>
    intro cur h1 _
    simp [titleBucketsGo, List.countP_cons, h1]
  | cons b bs ih =>
    intro cur h1 h2
    unfold titleBucketsGo
    split
    · rw [List.countP_cons]
      have hb : bookLetter b ≠ "Symbols" := by
        rw [ne_eq, bookLetter_symbols_iff]
        exact h2 b (by simp)
      rw [ih (bookLetter b, [b]) hb (fun x hx => h2 x (by simp [hx]))]
      simp [h1]
    · exact ih _ h1 (fun x hx => h2 x (by simp [hx]))

theorem titleBucketsGo_symb_one (rest : List TBook) : ∀ cur,
    cur.1 = "Symbols" →
    (∃ S A, rest = S ++ A ∧ (∀ b ∈ S, symbBook b) ∧ (∀ b ∈ A, ¬ symbBook b)) →
    (titleBucketsGo cur rest).countP (fun p => p.1 = "Symbols") = 1 := by
  induction rest with
  | nil =>
    intro cur h1 _
    simp [titleBucketsGo, List.countP_cons, h1]
  | cons b bs ih =>
    intro cur h1 ⟨S, A, hSA, hS, hA⟩
    unfold titleBucketsGo
    cases S with
    | nil =>
      simp at hSA
      have hb : bookLetter b ≠ "Symbols" := by
        rw [ne_eq, bookLetter_symbols_iff]
        exact hA b (by rw [← hSA]; simp)
      rw [if_pos (by rw [h1]; exact hb)]
      rw [List.countP_cons]
      have hbs : ∀ x ∈ bs, ¬ symbBook x := by
        intro x hx
        exact hA x (by rw [← hSA]; simp [hx])
      rw [titleBucketsGo_symb_none bs (bookLetter b, [b]) hb hbs]
      simp [h1]
    | cons s S' =>
      simp at hSA
      obtain ⟨hbs, hSA'⟩ := hSA
      have hbsymb : symbBook b := by rw [hbs]; exact hS s (by simp)
      have hbl : bookLetter b = "Symbols" := (bookLetter_symbols_iff b).mpr hbsymb
      rw [if_neg (by rw [hbl, h1]; simp)]
      exact ih _ h1 ⟨S', A, hSA', fun x hx => hS x (by simp [hx]), hA⟩

theorem isAlphaAZ_false_of_lt65 {c : Char} (h : c.toNat < 65) :
    isAlphaAZ c = false := by
  by_contra h'
  simp only [Bool.not_eq_false] at h'
  rcases isAlphaAZ_toNat h' with ⟨h1, _⟩ | ⟨h1, _⟩ <;> omega

theorem isAlphaAZ_of_upper_range {c : Char} (h1 : 65 ≤ c.toNat) (h2 : c.toNat ≤ 90) :
    isAlphaAZ c = true := by
  simp [isAlphaAZ, Char.le_def]
  exact Or.inr ⟨h1, h2⟩

theorem pySplitAux_words_ne_nil : ∀ (l acc : List Char),
    ∀ w ∈ pySplitAux l acc, w.data ≠ [] := by
  intro l
  induction l with
  | nil =>
    intro acc w hw
    unfold pySplitAux at hw
    split at hw
    · simp at hw
    · rename_i hacc
      simp at hw
      subst hw
      simp only [ne_eq]
      intro h
      have : acc.reverse = [] := h
      simp at this
      subst this
      simp at hacc
  | cons c cs ih =>
    intro acc w hw
    unfold pySplitAux at hw
    split at hw
    · split at hw
      · exact ih [] w hw
      · rename_i hacc
        rcases List.mem_cons.mp hw with hw | hw
        · subst hw
          simp only [ne_eq]
          intro h
          have : acc.reverse = [] := h
          simp at this
          subst this
          simp at hacc
        · exact ih [] w hw
    · exact ih (c :: acc) w hw

theorem pySplit_words_ne_nil (s : String) : ∀ w ∈ pySplit s, w.data ≠ [] :=
  pySplitAux_words_ne_nil s.data []

theorem numTransform_head (w : String) :
    ∃ y tl, (numTransform w).data = y :: tl ∧ 32 ≤ y.toNat ∧ y.toNat ≤ 57 := by
  unfold numTransform
  obtain ⟨y, ytl, hy⟩ := List.exists_cons_of_ne_nil
    (pyFormat10_0f_ne_nil (natOfDigits ((w.data.filter (fun c => c ≠ ',')).takeWhile Char.isDigit)))
  have hb := pyFormat10_0f_mem
    (natOfDigits ((w.data.filter (fun c => c ≠ ',')).takeWhile Char.isDigit)) y
    (by rw [hy]; simp)
  refine ⟨y, ytl ++ (w.data.filter (fun c => c ≠ ',')).dropWhile Char.isDigit, ?_, hb.1, hb.2⟩
  show (pyFormat10_0f _).data ++ _ = _
  rw [hy]
  simp

theorem transformFirstSlash_head_le57 (w1 : String) (y : Char) (tl : List Char)
    (hy : w1.data = y :: tl) (hyb : y.toNat ≤ 57) :
    transformFirstSlash w1 = [capFirst w1] := by
  unfold transformFirstSlash
  rw [hy]
  show (if letter_or_symbol y ≠ String.mk [y] ∧
      ('A' < y ∨ ((57 : Nat) < y.toNat ∧ y.toNat < 65)) then
    ["/", capFirst w1] else [capFirst w1]) = [capFirst w1]
  rw [if_neg ?_]
  rintro ⟨-, h2 | h2⟩
  · rw [Char.lt_def] at h2
    have : (65 : Nat) < y.toNat := h2
    omega
  · omega

theorem capFirst_data_cons (w : String) (y : Char) (tl : List Char)
    (hy : w.data = y :: tl) :
    (capFirst w).data = y.toUpper :: tl.map Char.toLower := by
  cases w with
  | mk d =>
    have : d = y :: tl := hy
    subst this
    rfl

/-- First-character classification of `generateSortTitle` keys: the key of
any title either starts with an uppercase ASCII letter or with a character
below `'A'` (space, digit, low symbol, or the forced `'/'`). -/
theorem gst_head_class (t : String) (hne : (generateSortTitle t).data ≠ []) :
    ∃ c tl, (generateSortTitle t).data = c :: tl ∧
      ((isAlphaAZ c = true ∧ 65 ≤ c.toNat ∧ c.toNat ≤ 90) ∨
       (isAlphaAZ c = false ∧ c.toNat < 65)) := by
  cases hsplit : pySplit (title_sort t) with
  | nil =>
    exfalso
    apply hne
    unfold generateSortTitle
    rw [hsplit]
  | cons w ws =>
    have hwne : w.data ≠ [] := pySplit_words_ne_nil _ w (by rw [hsplit]; simp)
    obtain ⟨c0, rest, hc0⟩ := List.exists_cons_of_ne_nil hwne
    have hgst : generateSortTitle t =
        joinSpace (transformFirstWordCore (c0 :: rest) ++ ws.map transformRestWord) := by
      unfold generateSortTitle
      rw [hsplit]
      show joinSpace (transformFirstWordCore w.data ++ _) = _
      rw [hc0]
    by_cases hdig : c0.isDigit = true
    · -- number-translated first word: head is a space or a digit
      obtain ⟨y, ytl, hy, hy1, hy2⟩ := numTransform_head (String.mk (c0 :: rest))
      have hcore : transformFirstWordCore (c0 :: rest) =
          [capFirst (numTransform (String.mk (c0 :: rest)))] := by
        unfold transformFirstWordCore
        simp only [hdig, if_true]
        exact transformFirstSlash_head_le57 _ y ytl hy (by omega)
      rw [hgst, hcore]
      obtain ⟨tl, htl⟩ := joinSpace_data_cons (capFirst (numTransform (String.mk (c0 :: rest))))
        (ws.map transformRestWord)
      rw [List.singleton_append, htl, capFirst_data_cons _ y ytl hy]
      refine ⟨y.toUpper, _, rfl, Or.inr ?_⟩
      rw [toUpper_of_lt97 y (by omega)]
      exact ⟨isAlphaAZ_false_of_lt65 (by omega), by omega⟩
    · by_cases halpha : isAlphaAZ c0 = true
      · -- letter-led first word: head is the capitalized letter
        have hcore : transformFirstWordCore (c0 :: rest) =
            [String.mk (c0.toUpper :: rest.map Char.toLower)] :=
          transformFirstWord_alpha c0 rest halpha
        rw [hgst, hcore]
        obtain ⟨tl, htl⟩ := joinSpace_data_cons (String.mk (c0.toUpper :: rest.map Char.toLower))
          (ws.map transformRestWord)
        rw [List.singleton_append, htl]
        obtain ⟨hr1, hr2⟩ := toUpper_alpha_range halpha
        exact ⟨c0.toUpper, _, rfl, Or.inl ⟨isAlphaAZ_of_upper_range hr1 hr2, hr1, hr2⟩⟩
      · -- symbol-led first word
        have hcd : c0.isDigit = false := by
          rw [← Bool.not_eq_true]; exact hdig
        have hcore0 : transformFirstWordCore (c0 :: rest) =
            transformFirstSlash (String.mk (c0 :: rest)) := by
          show transformFirstSlash (if c0.isDigit = true then
            numTransform (String.mk (c0 :: rest)) else String.mk (c0 :: rest)) = _
          rw [if_neg hdig]
        by_cases hcond : letter_or_symbol c0 ≠ String.mk [c0] ∧
            ('A' < c0 ∨ ((57 : Nat) < c0.toNat ∧ c0.toNat < 65))
        · -- '/' is prepended and becomes the head of the key
          have hcore : transformFirstWordCore (c0 :: rest) =
              ["/", capFirst (String.mk (c0 :: rest))] := by
            rw [hcore0]
            unfold transformFirstSlash
            show (if letter_or_symbol c0 ≠ String.mk [c0] ∧
                ('A' < c0 ∨ ((57 : Nat) < c0.toNat ∧ c0.toNat < 65)) then
              ["/", capFirst (String.mk (c0 :: rest))]
            else [capFirst (String.mk (c0 :: rest))]) = _
            rw [if_pos hcond]
          rw [hgst, hcore]
          obtain ⟨tl, htl⟩ := joinSpace_data_cons "/"
            ([capFirst (String.mk (c0 :: rest))] ++ ws.map transformRestWord)
          rw [List.cons_append, htl]
          exact ⟨'/', tl, rfl, Or.inr ⟨by decide, by decide⟩⟩
        · -- no slash: the (unchanged) symbol is the head of the key
          have hc0le : c0.toNat ≤ 57 := by
            push_neg at hcond
            have hlos : letter_or_symbol c0 ≠ String.mk [c0] := by
              unfold letter_or_symbol
              rw [if_neg halpha]
              intro h
              have h2 : ("Symbols" : String).data.length = (String.mk [c0]).data.length := by
                rw [h]
              have h4 : ("Symbols" : String).data.length = 7 := rfl
              have h5 : (String.mk [c0]).data.length = 1 := rfl
              omega
            obtain ⟨hA, hB⟩ := hcond hlos
            rw [Char.le_def] at hA
            have hA' : c0.toNat ≤ 65 := hA
            rcases Nat.lt_or_ge 57 c0.toNat with h57 | h57
            · have h65 := hB h57
              exact absurd (isAlphaAZ_of_upper_range (by omega) (by omega)) halpha
            · exact h57
          have hcore : transformFirstWordCore (c0 :: rest) =
              [capFirst (String.mk (c0 :: rest))] := by
            rw [hcore0]
            exact transformFirstSlash_head_le57 _ c0 rest rfl hc0le
          rw [hgst, hcore]
          obtain ⟨tl, htl⟩ := joinSpace_data_cons (capFirst (String.mk (c0 :: rest)))
            (ws.map transformRestWord)
          rw [List.singleton_append, htl, capFirst_data_cons _ c0 rest rfl]
          refine ⟨c0.toUpper, _, rfl, Or.inr ?_⟩
          rw [toUpper_of_lt97 c0 (by omega)]
          exact ⟨isAlphaAZ_false_of_lt65 (by omega), by omega⟩

theorem data_ne_nil_of_ne_empty {s : String} (h : s ≠ "") : s.data ≠ [] := by
  intro hd
  apply h
  cases s with
  | mk d =>
    have : d = [] := hd
    subst this
    rfl

theorem firstChar_of_data {s : String} {c : Char} {tl : List Char}
    (h : s.data = c :: tl) : firstChar s = c := by
  unfold firstChar
  rw [h]
  rfl

/-- Along a list sorted by `title_sort.upper()` whose sort keys come from
`generateSortTitle`, a book with an alphabetic initial is never followed by
one with a symbolic initial. -/
theorem symb_not_after_alpha (a b : TBook)
    (hka : a.title_sort = generateSortTitle a.title ∧ a.title_sort ≠ "")
    (hkb : b.title_sort = generateSortTitle b.title ∧ b.title_sort ≠ "")
    (hle : strLe (upperStr a.title_sort) (upperStr b.title_sort) = true)
    (hna : ¬ symbBook a) (hsb : symbBook b) : False := by
  have hadne : (generateSortTitle a.title).data ≠ [] := by
    rw [← hka.1]; exact data_ne_nil_of_ne_empty hka.2
  have hbdne : (generateSortTitle b.title).data ≠ [] := by
    rw [← hkb.1]; exact data_ne_nil_of_ne_empty hkb.2
  obtain ⟨ca, tla, hda, hclassa⟩ := gst_head_class a.title hadne
  obtain ⟨cb, tlb, hdb, hclassb⟩ := gst_head_class b.title hbdne
  have hda' : a.title_sort.data = ca :: tla := by rw [hka.1]; exact hda
  have hdb' : b.title_sort.data = cb :: tlb := by rw [hkb.1]; exact hdb
  have hfa : firstChar a.title_sort = ca := firstChar_of_data hda'
  have hfb : firstChar b.title_sort = cb := firstChar_of_data hdb'
  unfold symbBook at hna hsb
  rw [hfa] at hna
  rw [hfb] at hsb
  push_neg at hna
  have hca : 65 ≤ ca.toNat ∧ ca.toNat ≤ 90 := by
    rcases hclassa with ⟨_, h1, h2⟩ | ⟨h1, _⟩
    · exact ⟨h1, h2⟩
    · rw [h1] at hna; simp at hna
  have hcb : cb.toNat < 65 := by
    rcases hclassb with ⟨h1, _, _⟩ | ⟨_, h2⟩
    · exact absurd h1 hsb
    · exact h2
  have hua : (upperStr a.title_sort).data = ca :: tla.map Char.toUpper := by
    show a.title_sort.data.map Char.toUpper = _
    rw [hda']
    rw [List.map_cons, toUpper_of_lt97 ca (by omega)]
  have hub : (upperStr b.title_sort).data = cb :: tlb.map Char.toUpper := by
    show b.title_sort.data.map Char.toUpper = _
    rw [hdb']
    rw [List.map_cons, toUpper_of_lt97 cb (by omega)]
  have hlt : strLt (upperStr b.title_sort) (upperStr a.title_sort) = true := by
    show lexLt _ _ = true
    rw [hua, hub]
    exact lexLt_cons_of_lt (by omega) _ _
  unfold strLe at hle
  rw [hlt] at hle
  simp at hle

/-- The sorted book list splits into a symbolic-initial prefix followed by
an alphabetic-initial suffix. -/
theorem symb_prefix_split (books : List TBook)
    (hks : ∀ b ∈ books, b.title_sort = generateSortTitle b.title ∧ b.title_sort ≠ "")
    (hsorted : List.Chain'
      (fun a b => strLe (upperStr a.title_sort) (upperStr b.title_sort) = true) books) :
    ∃ S A, books = S ++ A ∧ (∀ b ∈ S, symbBook b) ∧ (∀ b ∈ A, ¬ symbBook b) := by
  induction books with
  | nil => exact ⟨[], [], rfl, by simp, by simp⟩
  | cons b bs ih =>
    obtain ⟨S', A', hSA, hS, hA⟩ := ih (fun x hx => hks x (by simp [hx])) hsorted.tail
    by_cases hb : symbBook b
    · exact ⟨b :: S', A', by rw [hSA]; rfl, by
        intro x hx
        rcases List.mem_cons.mp hx with hx | hx
        · subst hx; exact hb
        · exact hS x hx, hA⟩
    · cases S' with
      | nil =>
        refine ⟨[], b :: bs, rfl, by simp, ?_⟩
        intro x hx
        rcases List.mem_cons.mp hx with hx | hx
        · subst hx; exact hb
        · rw [hSA] at hx
          simp at hx
          exact hA x hx
      | cons s S2 =>
        exfalso
        have hrel : strLe (upperStr b.title_sort) (upperStr s.title_sort) = true := by
          have hbs : bs = s :: (S2 ++ A') := by rw [hSA]; rfl
          have hchain2 : List.Chain'
              (fun a b => strLe (upperStr a.title_sort) (upperStr b.title_sort) = true)
              (b :: s :: (S2 ++ A')) := by rw [← hbs]; exact hsorted
          exact (List.chain'_cons.mp hchain2).1
        exact symb_not_after_alpha b s (hks b (by simp))
          (hks s (by rw [hSA]; simp)) hrel hb (hS s (by simp))

/-- C5: in the Titles section, for a non-empty book list sorted by
`title_sort.upper()` whose sort keys were synthesized by
`generateSortTitle` (as `fetchBooksByTitle` does), the letter buckets of
`generateHTMLByTitle` (i) partition the books in order, (ii) label every
bucket with `letter_or_symbol` of the first character of its books'
`title_sort`, (iii) open a new bucket exactly when that letter changes
between consecutive books (consecutive buckets carry different letters),
(iv) contain at most one bucket labeled `"Symbols"`, and (v) a book's
bucket is `"Symbols"` exactly when its `title_sort` starts with a
non-alphabetic character. -/
theorem C5_title_letter_buckets (books : List TBook) (hne : books ≠ [])
    (hks : ∀ b ∈ books, b.title_sort = generateSortTitle b.title ∧ b.title_sort ≠ "")
    (hsorted : List.Chain'
      (fun a b => strLe (upperStr a.title_sort) (upperStr b.title_sort) = true) books) :
    ((titleBuckets books).map Prod.snd).flatten = books ∧
    (∀ p ∈ titleBuckets books, p.2 ≠ [] ∧ ∀ b ∈ p.2, bookLetter b = p.1) ∧
    List.Chain' (fun p q => p.1 ≠ q.1) (titleBuckets books) ∧
    (titleBuckets books).countP (fun p => p.1 = "Symbols") ≤ 1 ∧
    (∀ b ∈ books, (bookLetter b = "Symbols" ↔ symbBook b)) := by
  obtain ⟨S, A, hSA, hS, hA⟩ := symb_prefix_split books hks hsorted
  cases books with
  | nil => exact absurd rfl hne
  | cons b bs =>
    refine ⟨?_, ?_, ?_, ?_, ?_⟩
    · show ((titleBucketsGo (bookLetter b, [b]) bs).map Prod.snd).flatten = _
      rw [titleBucketsGo_join]
      rfl
    · exact titleBucketsGo_labels bs (bookLetter b, [b]) (by simp) (by simp)
    · exact titleBucketsGo_chain bs (bookLetter b, [b])
    · show (titleBucketsGo (bookLetter b, [b]) bs).countP (fun p => p.1 = "Symbols") ≤ 1
      by_cases hb : symbBook b
      · cases S with
        | nil =>
          exfalso
          refine hA b ?_ hb
          have hx : b ∈ b :: bs := by simp
          rw [hSA] at hx
          simpa using hx
        | cons s S2 =>
          have hbs : b = s ∧ bs = S2 ++ A := by
            have h2 : b :: bs = s :: (S2 ++ A) := hSA
            rw [List.cons.injEq] at h2
            exact h2
          rw [titleBucketsGo_symb_one bs (bookLetter b, [b])
            ((bookLetter_symbols_iff b).mpr hb)
            ⟨S2, A, hbs.2, fun x hx => hS x (by simp [hx]), hA⟩]
      · have hAll : ∀ x ∈ bs, ¬ symbBook x := by
          cases S with
          | nil =>
            intro x hx
            refine hA x ?_
            have hx2 : x ∈ b :: bs := by simp [hx]
            rw [hSA] at hx2
            simpa using hx2
          | cons s S2 =>
            exfalso
            have hbs2 : b = s := by
              have h2 : b :: bs = s :: (S2 ++ A) := hSA
              rw [List.cons.injEq] at h2
              exact h2.1
            exact hb (hbs2 ▸ hS s (by simp))
        rw [titleBucketsGo_symb_none bs (bookLetter b, [b])
          (fun h => hb ((bookLetter_symbols_iff b).mp h)) hAll]
        omega
    · intro x _
      exact bookLetter_symbols_iff x

/-- C5, witness: two books, a leading-number title bucketed under
`"Symbols"` and a letter title bucketed under `"A"`. -/
theorem C5_witness :
    let books := [TBook.mk "12 Monkeys" "        12 Monkeys", TBook.mk "Apple" "Apple"]
    ((titleBuckets books).map Prod.snd).flatten = books ∧
    (∀ p ∈ titleBuckets books, p.2 ≠ [] ∧ ∀ b ∈ p.2, bookLetter b = p.1) ∧
    List.Chain' (fun p q => p.1 ≠ q.1) (titleBuckets books) ∧
    (titleBuckets books).countP (fun p => p.1 = "Symbols") ≤ 1 ∧
    (∀ b ∈ books, (bookLetter b = "Symbols" ↔ symbBook b)) :=
  C5_title_letter_buckets
    [TBook.mk "12 Monkeys" "        12 Monkeys", TBook.mk "Apple" "Apple"]
    (by decide) (by decide)
    (List.chain'_cons.mpr ⟨by decide, List.chain'_singleton _⟩)

/-! ### Claim C1: play order in the NCX -/

/-- C1: the claim that every navPoint (periodical title, sections, and the
articles nested in them) carries a playOrder, with the values distinct and
consecutive in document order, is broken by `generateNCXByTitle`: line 3399
assigns the counter to the section tag instead of the article tag.  On a
two-letter Titles catalog the title navPoint holds playOrder 1, the Titles
section ends with playOrder 4 (overwritten once per article), and both
article navPoints carry no playOrder at all — by contrast,
`generateNCXDescriptions` (line 3167) numbers its articles correctly. -/
theorem C1_ncx_playorder_bug :
    ncxHeader.1.playOrder = some 1 ∧
    (ncxByTitle [TBook.mk "Apple" "Apple", TBook.mk "Zebra" "Zebra"]
      ncxHeader.2).1.playOrder = some 4 ∧
    ((ncxByTitle [TBook.mk "Apple" "Apple", TBook.mk "Zebra" "Zebra"]
      ncxHeader.2).1.children.map NavPoint.playOrder) = [none, none] ∧
    ((ncxDescriptions [⟨1, "a", "a", "Apple", "Apple", none, 0⟩,
        ⟨2, "z", "z", "Zebra", "Zebra", none, 0⟩] 2).1.children.map
      NavPoint.playOrder) = [some 3, some 4] := by
  refine ⟨rfl, ?_, ?_, ?_⟩ <;> decide

/-! ### Claim C2: NCX/OPF/content cross-consistency -/

/-- C2: the cross-linking claim is broken by the NCX header.  In a catalog
whose first enabled section is Genres, `generateNCXHeader` (line 3109)
points the periodical navPoint at `content/ByGenres.html`, but
`generateHTMLByTags` writes the genre sections as `Genre_<tag>.html`
(lines 2836-2839); no `ByGenres.html` is ever written and the OPF manifest
does not register it. -/
theorem C2_bygenres_unwritten :
    ∃ out, buildSourcesFiles
        { generate_descriptions := false, generate_authors := false,
          generate_titles := false, generate_series := false,
          generate_genres := true, generate_recently_added := false,
          generateRecentlyRead := false }
        [⟨1, "Ann Author", "Author, Ann", "Apple", "Apple", none, 0⟩]
        [] ["fiction"] false = some out ∧
      "content/ByGenres.html" ∈ out.ncxSrcFiles ∧
      "content/ByGenres.html" ∉ out.written ∧
      "content/ByGenres.html" ∉ out.manifest := by
  refine ⟨_, rfl, ?_, ?_, ?_⟩ <;> decide

/-! ### Claim C6: unique authors -/

/-- C6: for a single-book list, the unique-author accumulation of
`fetchBooksByAuthor` appends the author twice, both times with a book count
of 0 — the `elif i==0 and len(authors)==1` branch (lines 1486-1489, whose
comment says "Allow for single-book lists") appends without counting the
book, and the `for`/`else` clause (lines 1492-1496) appends the same author
again because `multiple_authors` is still false.  The claim's unique-author
list — each author once, counts summing to the number of books — would be
`[("Jane Doe", "Doe, Jane", 1)]`. -/
theorem C6_single_book_unique_authors_bug :
    uniqueAuthors [("Jane Doe", "Doe, jane")] =
      [("Jane Doe", "Doe, Jane", 0), ("Jane Doe", "Doe, Jane", 0)] ∧
    ((uniqueAuthors [("Jane Doe", "Doe, jane")]).map (fun t => t.2.2)).sum = 0 := by
  constructor
  · decide
  · decide

/-! ### Claim C9: the author-sort consistency check -/

theorem adjBad_cons2 (x y : String × String) (rest : List (String × String)) :
    adjBad (x :: y :: rest) = ((decide (x.1 = y.1 ∧ x.2 ≠ y.2)) || adjBad (y :: rest)) :=
  rfl

theorem walkErr_fst (as : List (String × String)) : ∀ cur,
    (walkErr cur as).1 = !adjBad (cur :: as) := by
  induction as with
  | nil => intro cur; rfl
  | cons a as ih =>
    intro cur
    rw [adjBad_cons2]
    unfold walkErr
    by_cases hac : a = cur
    · rw [if_neg (by simp [hac])]
      have hdec : decide (cur.1 = a.1 ∧ cur.2 ≠ a.2) = false := by
        rw [decide_eq_false_iff_not]
        rintro ⟨-, h2⟩
        exact h2 (by rw [hac])
      rw [hdec, Bool.false_or, hac]
      exact ih cur
    · rw [if_pos hac]
      by_cases h1 : a.1 = cur.1
      · rw [if_pos h1]
        have hdec : decide (cur.1 = a.1 ∧ cur.2 ≠ a.2) = true := by
          rw [decide_eq_true_eq]
          refine ⟨h1.symm, ?_⟩
          intro h2
          exact hac (Prod.ext h1 h2.symm)
        rw [hdec]
        rfl
      · rw [if_neg h1]
        have hdec : decide (cur.1 = a.1 ∧ cur.2 ≠ a.2) = false := by
          rw [decide_eq_false_iff_not]
          rintro ⟨h2, -⟩
          exact h1 h2.symm
        rw [hdec, Bool.false_or]
        exact ih a

theorem walkErr_shape (as : List (String × String)) : ∀ cur,
    walkErr cur as = (true, []) ∨
    ((walkErr cur as).1 = false ∧ "Metadata error" ∈ (walkErr cur as).2) := by
  induction as with
  | nil => intro cur; exact Or.inl rfl
  | cons a as ih =>
    intro cur
    unfold walkErr
    split
    · split
      · exact Or.inr ⟨rfl, by simp⟩
      · exact ih a
    · exact ih cur

/-- C9, counterexample: three non-series books by display author
`"john doe"` (sorts `x` and `z`) interleaved with one by `"John Doe"`
(sort `y`).  All three receive the same computed author key prefix
`"Doe, john"`, so the title parts interleave them; the walk only compares
adjacent pairs and never sees the two `"john doe"` books next to each
other, so `fetchBooksByAuthor` succeeds with no error appended although the
list contains two books with the same display name and different
author_sort values. -/
theorem C9_counterexample :
    (∃ b1 ∈ ([⟨1, "john doe", "x", "Alpha", "alpha", none, 0⟩,
        ⟨2, "John Doe", "y", "Beta", "beta", none, 0⟩,
        ⟨3, "john doe", "z", "Gamma", "gamma", none, 0⟩] : List BookRec),
      ∃ b2 ∈ ([⟨1, "john doe", "x", "Alpha", "alpha", none, 0⟩,
        ⟨2, "John Doe", "y", "Beta", "beta", none, 0⟩,
        ⟨3, "john doe", "z", "Gamma", "gamma", none, 0⟩] : List BookRec),
        b1.author = b2.author ∧ b1.author_sort ≠ b2.author_sort) ∧
    fetchBooksByAuthorResult [⟨1, "john doe", "x", "Alpha", "alpha", none, 0⟩,
        ⟨2, "John Doe", "y", "Beta", "beta", none, 0⟩,
        ⟨3, "john doe", "z", "Gamma", "gamma", none, 0⟩] = (true, []) := by
  constructor
  · decide
  · decide

/-- C9 (amended): `fetchBooksByAuthor` detects an author-sort mismatch
exactly when two **consecutive** books in the `booksByAuthorSorter_author`
order share a display name with different author_sort values (in
particular whenever no other author's computed key interleaves the
same-name books).  On detection it appends `'Metadata error'` and the
descriptive message and returns failure, and `buildSources` aborts before
producing any content, OPF or NCX output; otherwise it succeeds and leaves
the error list unchanged. -/
theorem C9_author_mismatch_detection (books : List BookRec) (opts : Opts)
    (bss : List BookRec) (genres : List String) (hbm : Bool)
    (hne : books ≠ []) :
    ((fetchBooksByAuthorResult books).1 = false ↔
      adjBad ((sortedByAuthor books).map (fun b => (b.author, b.author_sort))) = true) ∧
    ((fetchBooksByAuthorResult books).1 = false →
      "Metadata error" ∈ (fetchBooksByAuthorResult books).2 ∧
      buildSourcesFiles opts books bss genres hbm = none) ∧
    ((fetchBooksByAuthorResult books).1 = true →
      (fetchBooksByAuthorResult books).2 = []) := by
  have hperm : sortedByAuthor books ≠ [] := by
    intro h
    have := List.perm_insertionSort
      (fun b1 b2 => strLe (booksByAuthorSorter_author b1) (booksByAuthorSorter_author b2) = true)
      books
    rw [show List.insertionSort _ books = sortedByAuthor books from rfl, h] at this
    exact hne (List.Perm.nil_eq this).symm
  cases hp : (sortedByAuthor books).map (fun b => (b.author, b.author_sort)) with
  | nil => exact absurd (List.map_eq_nil_iff.mp hp) hperm
  | cons a as =>
    have hres : fetchBooksByAuthorResult books = walkErr a as := by
      unfold fetchBooksByAuthorResult
      rw [hp]
    refine ⟨?_, ?_, ?_⟩
    · rw [hres, walkErr_fst as a, ← hp]
      simp
    · intro hfail
      have herr : "Metadata error" ∈ (fetchBooksByAuthorResult books).2 := by
        rcases walkErr_shape as a with h | h
        · rw [hres, h] at hfail
          simp at hfail
        · rw [hres]
          exact h.2
      refine ⟨herr, ?_⟩
      unfold buildSourcesFiles
      rw [if_neg (by simp [hne]), if_pos hfail]
    · intro hok
      rcases walkErr_shape as a with h | h
      · rw [hres, h]
      · rw [hres] at hok
        rw [h.1] at hok
        simp at hok

/-- C9, witness: the amended theorem applied to a two-book list with a
detectable (adjacent) mismatch. -/
theorem C9_witness :
    ((fetchBooksByAuthorResult [⟨1, "Ann Author", "x", "Apple", "apple", none, 0⟩,
        ⟨2, "Ann Author", "y", "Beta", "beta", none, 0⟩]).1 = false ↔
      adjBad ((sortedByAuthor [⟨1, "Ann Author", "x", "Apple", "apple", none, 0⟩,
          ⟨2, "Ann Author", "y", "Beta", "beta", none, 0⟩]).map
        (fun b => (b.author, b.author_sort))) = true) ∧
    ((fetchBooksByAuthorResult [⟨1, "Ann Author", "x", "Apple", "apple", none, 0⟩,
        ⟨2, "Ann Author", "y", "Beta", "beta", none, 0⟩]).1 = false →
      "Metadata error" ∈ (fetchBooksByAuthorResult
        [⟨1, "Ann Author", "x", "Apple", "apple", none, 0⟩,
         ⟨2, "Ann Author", "y", "Beta", "beta", none, 0⟩]).2 ∧
      buildSourcesFiles ⟨false, true, false, false, false, false, false⟩
        [⟨1, "Ann Author", "x", "Apple", "apple", none, 0⟩,
         ⟨2, "Ann Author", "y", "Beta", "beta", none, 0⟩] [] [] false = none) ∧
    ((fetchBooksByAuthorResult [⟨1, "Ann Author", "x", "Apple", "apple", none, 0⟩,
        ⟨2, "Ann Author", "y", "Beta", "beta", none, 0⟩]).1 = true →
      (fetchBooksByAuthorResult [⟨1, "Ann Author", "x", "Apple", "apple", none, 0⟩,
        ⟨2, "Ann Author", "y", "Beta", "beta", none, 0⟩]).2 = []) :=
  C9_author_mismatch_detection
    [⟨1, "Ann Author", "x", "Apple", "apple", none, 0⟩,
     ⟨2, "Ann Author", "y", "Beta", "beta", none, 0⟩]
    ⟨false, true, false, false, false, false, false⟩ [] [] false (by decide)

/-! ### Claim C3: the thumbnail cache -/

theorem getinfo_eq_archivedEntry (archive : List ZipEntry) (name : String) :
    getinfo archive name = archivedEntry archive name := by
  suffices h : ∀ (l : List ZipEntry) (acc : Option ZipEntry),
      l.foldl (fun acc e => if e.name = name then some e else acc) acc =
        match (l.filter (fun e => e.name = name)).getLast? with
        | some e => some e
        | Option.none => acc by
    show _ = (archive.filter (fun e => e.name = name)).getLast?
    rw [show getinfo archive name =
      archive.foldl (fun acc e => if e.name = name then some e else acc) Option.none from rfl]
    rw [h archive Option.none]
    cases (archive.filter (fun e => e.name = name)).getLast? <;> rfl
  intro l
  induction l with
  | nil => intro acc; rfl
  | cons e l ih =>
    intro acc
    show l.foldl _ (if e.name = name then some e else acc) = _
    rw [ih]
    by_cases he : e.name = name
    · rw [if_pos he]
      rw [show (e :: l).filter (fun x => x.name = name) =
        e :: l.filter (fun x => x.name = name) from by rw [List.filter_cons, if_pos (by simp [he])]]
      rw [List.getLast?_cons]
      cases hl : (l.filter (fun x => x.name = name)).getLast? with
      | none => simp
      | some x => simp
    · rw [if_neg he]
      rw [show (e :: l).filter (fun x => x.name = name) =
        l.filter (fun x => x.name = name) from by rw [List.filter_cons, if_neg (by simp [he])]]

/-- C3: `generateThumbnail` reuses the archived thumbnail for the book if
and only if the archive's entry for the book's uuid records a hash equal to
`hex(crc32(current cover bytes))`; on reuse the archived bytes land in the
images directory under `thumb_file` and the archive is unchanged, otherwise
a freshly computed thumbnail is written to the images directory and
appended to the archive together with the new hash. -/
theorem C3_thumbnail_cache (crc32F : List Nat → Int) (thumbF : List Nat → List Nat)
    (archive : List ZipEntry) (uuid : String) (coverData : List Nat)
    (thumb_file : String) :
    ((generateThumbnail crc32F thumbF archive uuid coverData thumb_file).reused = true ↔
      ∃ e, archivedEntry archive uuid = some e ∧ e.comment = pyHex (crc32F coverData)) ∧
    ((generateThumbnail crc32F thumbF archive uuid coverData thumb_file).reused = true →
      ∃ e, archivedEntry archive uuid = some e ∧
        (generateThumbnail crc32F thumbF archive uuid coverData thumb_file).imageWritten =
          (thumb_file, e.data) ∧
        (generateThumbnail crc32F thumbF archive uuid coverData thumb_file).archive = archive) ∧
    ((generateThumbnail crc32F thumbF archive uuid coverData thumb_file).reused = false →
      (generateThumbnail crc32F thumbF archive uuid coverData thumb_file).imageWritten =
        (thumb_file, thumbF coverData) ∧
      (generateThumbnail crc32F thumbF archive uuid coverData thumb_file).archive =
        archive ++ [⟨uuid, pyHex (crc32F coverData), thumbF coverData⟩]) := by
  have hga : archivedEntry archive uuid = getinfo archive uuid :=
    (getinfo_eq_archivedEntry archive uuid).symm
  cases harch : getinfo archive uuid with
  | none =>
    have h2 : archivedEntry archive uuid = Option.none := by rw [hga, harch]
    have hrun : generateThumbnail crc32F thumbF archive uuid coverData thumb_file =
        { reused := false,
          imageWritten := (thumb_file, thumbF coverData),
          archive := archive ++ [⟨uuid, pyHex (crc32F coverData), thumbF coverData⟩] } := by
      unfold generateThumbnail
      rw [harch]
    rw [hrun, h2]
    refine ⟨by simp, by simp, fun _ => ⟨rfl, rfl⟩⟩
  | some t =>
    have h2 : archivedEntry archive uuid = some t := by rw [hga, harch]
    by_cases hc : t.comment = pyHex (crc32F coverData)
    · have hrun : generateThumbnail crc32F thumbF archive uuid coverData thumb_file =
          { reused := true, imageWritten := (thumb_file, t.data), archive := archive } := by
        unfold generateThumbnail
        rw [harch]
        show (if t.comment = pyHex (crc32F coverData) then _ else _) = _
        rw [if_pos hc]
      rw [hrun, h2]
      refine ⟨⟨fun _ => ⟨t, rfl, hc⟩, fun _ => rfl⟩, fun _ => ⟨t, rfl, rfl, rfl⟩, by simp⟩
    · have hrun : generateThumbnail crc32F thumbF archive uuid coverData thumb_file =
          { reused := false,
            imageWritten := (thumb_file, thumbF coverData),
            archive := archive ++ [⟨uuid, pyHex (crc32F coverData), thumbF coverData⟩] } := by
        unfold generateThumbnail
        rw [harch]
        show (if t.comment = pyHex (crc32F coverData) then _ else _) = _
        rw [if_neg hc]
      rw [hrun, h2]
      refine ⟨⟨by simp, ?_⟩, by simp, fun _ => ⟨rfl, rfl⟩⟩
      rintro ⟨e, he, hce⟩
      rw [Option.some.injEq] at he
      subst he
      exact absurd hce hc

/-- C3, witness: a concrete archive whose entry for the book matches the
current cover hash, so the thumbnail is reused. -/
theorem C3_witness :
    ((generateThumbnail (fun l => (l.foldl (· + ·) 0 : Nat)) (fun l => l.map (· + 1))
        [⟨"u1", pyHex 6, [9]⟩] "u1" [1, 2, 3] "thumbnail_1.jpg").reused = true ↔
      ∃ e, archivedEntry [⟨"u1", pyHex 6, [9]⟩] "u1" = some e ∧
        e.comment = pyHex ((([1, 2, 3] : List Nat).foldl (· + ·) 0 : Nat))) ∧
    ((generateThumbnail (fun l => (l.foldl (· + ·) 0 : Nat)) (fun l => l.map (· + 1))
        [⟨"u1", pyHex 6, [9]⟩] "u1" [1, 2, 3] "thumbnail_1.jpg").reused = true →
      ∃ e, archivedEntry [⟨"u1", pyHex 6, [9]⟩] "u1" = some e ∧
        (generateThumbnail (fun l => (l.foldl (· + ·) 0 : Nat)) (fun l => l.map (· + 1))
          [⟨"u1", pyHex 6, [9]⟩] "u1" [1, 2, 3] "thumbnail_1.jpg").imageWritten =
            ("thumbnail_1.jpg", e.data) ∧
        (generateThumbnail (fun l => (l.foldl (· + ·) 0 : Nat)) (fun l => l.map (· + 1))
          [⟨"u1", pyHex 6, [9]⟩] "u1" [1, 2, 3] "thumbnail_1.jpg").archive =
            [⟨"u1", pyHex 6, [9]⟩]) ∧
    ((generateThumbnail (fun l => (l.foldl (· + ·) 0 : Nat)) (fun l => l.map (· + 1))
        [⟨"u1", pyHex 6, [9]⟩] "u1" [1, 2, 3] "thumbnail_1.jpg").reused = false →
      (generateThumbnail (fun l => (l.foldl (· + ·) 0 : Nat)) (fun l => l.map (· + 1))
        [⟨"u1", pyHex 6, [9]⟩] "u1" [1, 2, 3] "thumbnail_1.jpg").imageWritten =
          ("thumbnail_1.jpg", ([1, 2, 3] : List Nat).map (· + 1)) ∧
      (generateThumbnail (fun l => (l.foldl (· + ·) 0 : Nat)) (fun l => l.map (· + 1))
        [⟨"u1", pyHex 6, [9]⟩] "u1" [1, 2, 3] "thumbnail_1.jpg").archive =
          [⟨"u1", pyHex 6, [9]⟩] ++
            [⟨"u1", pyHex ((([1, 2, 3] : List Nat).foldl (· + ·) 0 : Nat)),
              ([1, 2, 3] : List Nat).map (· + 1)⟩]) :=
  C3_thumbnail_cache (fun l => (l.foldl (· + ·) 0 : Nat)) (fun l => l.map (· + 1))
    [⟨"u1", pyHex 6, [9]⟩] "u1" [1, 2, 3] "thumbnail_1.jpg"

/-! ### Claim C8: the CSV writer -/

theorem foldl_append_singleton {α β : Type} (g : α → β) :
    ∀ (l : List α) (acc : List β), l.foldl (fun a x => a ++ [g x]) acc = acc ++ l.map g := by
  intro l
  induction l with
  | nil => intro acc; simp
  | cons x xs ih =>
    intro acc
    show xs.foldl _ (acc ++ [g x]) = _
    rw [ih]
    simp

theorem foldl_congr_fn {α β : Type} (f g : β → α → β) (hfg : ∀ b a, f b a = g b a) :
    ∀ (l : List α) (init : β), l.foldl f init = l.foldl g init := by
  intro l
  induction l with
  | nil => intro init; rfl
  | cons x xs ih =>
    intro init
    show xs.foldl f (f init x) = xs.foldl g (g init x)
    rw [hfg, ih]

theorem foldl_append_concat {α : Type} (f : α → String) :
    ∀ (l : List α) (init : String),
      l.foldl (fun out x => out ++ f x) init = init ++ concatStrings (l.map f) := by
  intro l
  induction l with
  | nil =>
    intro init
    show init = init ++ concatStrings []
    show init = init ++ ""
    cases init with
    | mk d => show String.mk d = String.mk (d ++ []); simp
  | cons x xs ih =>
    intro init
    show xs.foldl _ (init ++ f x) = _
    rw [ih]
    show init ++ f x ++ concatStrings (xs.map f) = init ++ (f x ++ concatStrings (xs.map f))
    rw [String.append_assoc]

/-- C8: the CSV output is the UTF-8 byte-order mark, then the header line
joining the field names with commas, then exactly one newline-terminated
row per returned record in database order; within a row each cell is the
field value enclosed in double quotes with embedded quotes doubled, and a
`None` value renders as an empty quoted string. -/
theorem C8_csv_output (db : Nat → String → PyVal) (fields : List String)
    (data : List CSVEntry) :
    csvRun db fields data =
      "\xEF\xBB\xBF" ++ (joinComma fields ++ "\n") ++
        concatStrings (data.map (fun e =>
          joinComma (fields.map (csvRendered db e)) ++ "\n")) ∧
    (∀ e f, csvItem db e f = PyVal.none → csvRendered db e f = "\"\"") ∧
    (∀ e f, csvItem db e f ≠ PyVal.none →
      csvRendered db e f = "\"" ++ escapeQuotes (pyStr (csvTransformed db e f)) ++ "\"") := by
  refine ⟨?_, ?_, ?_⟩
  · show data.foldl _ ("\xEF\xBB\xBF" ++ joinComma fields ++ "\n") = _
    have hrow : ∀ entry,
        fields.foldl (fun acc field => acc ++ [csvRendered db entry field]) [] =
          fields.map (csvRendered db entry) := by
      intro entry
      rw [foldl_append_singleton]
      simp
    calc data.foldl (fun out entry =>
          out ++ joinComma (fields.foldl
            (fun acc field => acc ++ [csvRendered db entry field]) []) ++ "\n")
          ("\xEF\xBB\xBF" ++ joinComma fields ++ "\n")
        = data.foldl (fun out entry =>
            out ++ (joinComma (fields.map (csvRendered db entry)) ++ "\n"))
            ("\xEF\xBB\xBF" ++ joinComma fields ++ "\n") := by
          apply foldl_congr_fn
          intro out entry
          rw [hrow entry, String.append_assoc]
      _ = _ := by
          rw [foldl_append_concat (fun e =>
            joinComma (fields.map (csvRendered db e)) ++ "\n") data]
          simp [String.append_assoc]
  · intro e f h
    unfold csvRendered
    rw [h]
  · intro e f h
    unfold csvRendered
    cases hv : csvItem db e f with
    | none => exact absurd hv h
    | str s => rfl
    | strList l => rfl
    | date d => rfl

/-! ### Claim C10: thumb-width validation -/

/-- C10, counterexample: the input `"nan"` parses as a float (so the
`except` branch is not taken), compares false against both bounds, and
passes through `'%.2f'` as the string `"nan"` — neither a two-decimal
string denoting a value in [1.0, 2.0] nor the fallback `"1.0"`. -/
theorem C10_counterexample :
    validateThumbWidth "nan" = "nan" ∧ ("nan" : String) ≠ "1.0" ∧
    ∀ c ∈ ("nan" : String).data, ¬ c.isDigit = true := by
  refine ⟨by decide, by decide, by decide⟩

theorem pyFloatLt_finite (n1 : Int) (e1 : Nat) (n2 : Int) (e2 : Nat) :
    pyFloatLt (PyFloat.finite n1 e1) (PyFloat.finite n2 e2) =
      decide (pyFloatVal n1 e1 < pyFloatVal n2 e2) := by
  show decide (n1 * 10 ^ e2 < n2 * 10 ^ e1) = _
  rw [decide_eq_decide]
  unfold pyFloatVal
  rw [div_lt_div_iff (by positivity) (by positivity)]
  constructor
  · intro h
    exact_mod_cast h
  · intro h
    exact_mod_cast h

theorem pyFloatVal_one : pyFloatVal 1 0 = 1 := by
  unfold pyFloatVal
  norm_num

theorem pyFloatVal_two : pyFloatVal 2 0 = 2 := by
  unfold pyFloatVal
  norm_num

/-- C10 (amended): for every thumb-width input that does not parse to NaN,
the validated value is as the claim states: unparsable inputs fall back to
`"1.0"`, finite values below 1.0 are coerced to 1.00, values above 2.0
(including `inf`) are coerced to 2.00, `-inf` is coerced to 1.00, and
finite values within [1.0, 2.0] are re-rendered as a two-decimal string of
a value in [1.00, 2.00].  (NaN inputs, excluded here, pass through as
`"nan"` — see `C10_counterexample`.) -/
theorem C10_thumb_width_coercion (s : String)
    (hnan : pyParseFloat s ≠ some PyFloat.nan) :
    (pyParseFloat s = Option.none → validateThumbWidth s = "1.0") ∧
    (∀ (num : Int) (e : Nat), pyParseFloat s = some (PyFloat.finite num e) →
      (pyFloatVal num e < 1 → validateThumbWidth s = "1.00") ∧
      (2 < pyFloatVal num e → validateThumbWidth s = "2.00") ∧
      (1 ≤ pyFloatVal num e → pyFloatVal num e ≤ 2 →
        validateThumbWidth s = pyFormat2f (PyFloat.finite num e) ∧
        ∃ n : Nat, 100 ≤ n ∧ n ≤ 200 ∧
          validateThumbWidth s =
            String.mk (natDigits (n / 100)) ++ "." ++ pad2Zeros (n % 100))) ∧
    (pyParseFloat s = some PyFloat.inf → validateThumbWidth s = "2.00") ∧
    (pyParseFloat s = some PyFloat.ninf → validateThumbWidth s = "1.00") := by
  have hp1 : pyParseFloat "1.0" = some (PyFloat.finite 10 1) := by decide
  have hp2 : pyParseFloat "2.0" = some (PyFloat.finite 20 1) := by decide
  refine ⟨?_, ?_, ?_, ?_⟩
  · intro h
    unfold validateThumbWidth
    rw [h]
  · intro num e hq
    refine ⟨?_, ?_, ?_⟩
    · intro hlt
      have h1 : pyFloatLt (PyFloat.finite num e) (PyFloat.finite 1 0) = true := by
        rw [pyFloatLt_finite, pyFloatVal_one]
        exact decide_eq_true hlt
      unfold validateThumbWidth
      rw [hq]
      simp only [h1, if_true, hp1]
      decide
    · intro hgt
      have h1 : pyFloatLt (PyFloat.finite num e) (PyFloat.finite 1 0) = false := by
        rw [pyFloatLt_finite, pyFloatVal_one]
        exact decide_eq_false (by intro h; linarith)
      have h2 : pyFloatLt (PyFloat.finite 2 0) (PyFloat.finite num e) = true := by
        rw [pyFloatLt_finite, pyFloatVal_two]
        exact decide_eq_true hgt
      unfold validateThumbWidth
      rw [hq]
      simp only [h1, if_false, Bool.false_eq_true, hq, h2, if_true, hp2]
      decide
    · intro hge hle
      have h1 : pyFloatLt (PyFloat.finite num e) (PyFloat.finite 1 0) = false := by
        rw [pyFloatLt_finite, pyFloatVal_one]
        exact decide_eq_false (by intro h; linarith)
      have h2 : pyFloatLt (PyFloat.finite 2 0) (PyFloat.finite num e) = false := by
        rw [pyFloatLt_finite, pyFloatVal_two]
        exact decide_eq_false (by intro h; linarith)
      have hval : validateThumbWidth s = pyFormat2f (PyFloat.finite num e) := by
        unfold validateThumbWidth
        rw [hq]
        simp only [h1, if_false, Bool.false_eq_true, hq, h2]
      have hPpos : (0 : Rat) < 10 ^ e := by positivity
      have hnum1 : ((10 : Int) ^ e : Int) ≤ num := by
        have := (one_le_div hPpos).mp (by unfold pyFloatVal at hge; exact hge)
        exact_mod_cast this
      have hnum2 : num ≤ 2 * 10 ^ e := by
        have := (div_le_iff hPpos).mp (by unfold pyFloatVal at hle; exact hle)
        rw [two_mul] at this ⊢
        exact_mod_cast this
      have hn0 : ¬ num < 0 := by
        intro h
        have hp : (0 : Int) < 10 ^ e := by positivity
        omega
      have hmt : (num.toNat : Int) = num := Int.toNat_of_nonneg (by omega)
      have hm1 : (10 : Nat) ^ e ≤ num.toNat := by
        have h10 : ((10 : Nat) ^ e : Int) = (10 : Int) ^ e := by push_cast; ring
        omega
      have hm2 : num.toNat ≤ 2 * 10 ^ e := by
        have h10 : ((10 : Nat) ^ e : Int) = (10 : Int) ^ e := by push_cast; ring
        omega
      have hfmt : pyFormat2f (PyFloat.finite num e) = format2Pos num.toNat e := by
        show (if num < 0 then "-" ++ format2Pos (-num).toNat e
              else format2Pos num.toNat e) = format2Pos num.toNat e
        rw [if_neg hn0]
      have hppos : 0 < (10 : Nat) ^ e := Nat.pos_pow_of_pos e (by omega)
      refine ⟨hval, (num.toNat * 200 + 10 ^ e) / (2 * 10 ^ e), ?_, ?_, ?_⟩
      · rw [Nat.le_div_iff_mul_le (by omega)]
        omega
      · have : (num.toNat * 200 + 10 ^ e) / (2 * 10 ^ e) < 201 := by
          rw [Nat.div_lt_iff_lt_mul (by omega)]
          omega
        omega
      · rw [hval, hfmt]
        unfold format2Pos
        rfl
  · intro h
    have h1 : pyFloatLt PyFloat.inf (PyFloat.finite 1 0) = false := rfl
    have h2 : pyFloatLt (PyFloat.finite 2 0) PyFloat.inf = true := rfl
    unfold validateThumbWidth
    rw [h]
    simp only [h1, if_false, Bool.false_eq_true, h, h2, if_true, hp2]
    decide
  · intro h
    have h1 : pyFloatLt PyFloat.ninf (PyFloat.finite 1 0) = true := rfl
    unfold validateThumbWidth
    rw [h]
    simp only [h1, if_true, hp1]
    decide

/-- C10, witness: the amended theorem applied to the input `"2.5"`. -/
theorem C10_witness :
    (pyParseFloat "2.5" = Option.none → validateThumbWidth "2.5" = "1.0") ∧
    (∀ (num : Int) (e : Nat), pyParseFloat "2.5" = some (PyFloat.finite num e) →
      (pyFloatVal num e < 1 → validateThumbWidth "2.5" = "1.00") ∧
      (2 < pyFloatVal num e → validateThumbWidth "2.5" = "2.00") ∧
      (1 ≤ pyFloatVal num e → pyFloatVal num e ≤ 2 →
        validateThumbWidth "2.5" = pyFormat2f (PyFloat.finite num e) ∧
        ∃ n : Nat, 100 ≤ n ∧ n ≤ 200 ∧
          validateThumbWidth "2.5" =
            String.mk (natDigits (n / 100)) ++ "." ++ pad2Zeros (n % 100))) ∧
    (pyParseFloat "2.5" = some PyFloat.inf → validateThumbWidth "2.5" = "2.00") ∧
    (pyParseFloat "2.5" = some PyFloat.ninf → validateThumbWidth "2.5" = "1.00") :=
  C10_thumb_width_coercion "2.5" (by decide)

/-! ### C7: the Recently Added grouping -/

theorem pdLt_asymm (a b : PDate) (h : pdLt a b = true) : ¬ pdLt b a = true := by
  simp only [pdLt, Bool.or_eq_true, Bool.and_eq_true, decide_eq_true_eq,
    beq_iff_eq] at h ⊢
  omega

theorem pdLt_cotrans (x y z : PDate) (hxz : pdLt x z = true)
    (hxy : ¬ pdLt x y = true) : pdLt y z = true := by
  simp only [pdLt, Bool.or_eq_true, Bool.and_eq_true, decide_eq_true_eq,
    beq_iff_eq] at hxz hxy ⊢
  omega

instance : IsTotal DBook tsGe :=
  ⟨fun a b => by
    unfold tsGe
    by_cases h : pdLt a.timestamp b.timestamp = true
    · exact Or.inr (pdLt_asymm _ _ h)
    · exact Or.inl h⟩

instance : IsTrans DBook tsGe :=
  ⟨fun a b c hab hbc => by
    unfold tsGe at hab hbc ⊢
    intro hac
    exact hbc (pdLt_cotrans a.timestamp b.timestamp c.timestamp hac hab)⟩

theorem ym_le_of_tsGe (a b : DBook) (h : tsGe a b) :
    b.timestamp.year < a.timestamp.year ∨
      (b.timestamp.year = a.timestamp.year ∧
        b.timestamp.month ≤ a.timestamp.month) := by
  unfold tsGe at h
  simp only [pdLt, Bool.or_eq_true, Bool.and_eq_true, decide_eq_true_eq,
    beq_iff_eq] at h
  omega

theorem isLeap_prop (y : Nat) :
    isLeap y = true ↔ (y % 4 = 0 ∧ (y % 100 ≠ 0 ∨ y % 400 = 0)) := by
  simp [isLeap, Bool.and_eq_true, Bool.or_eq_true]

set_option maxHeartbeats 1000000 in
theorem daysBeforeYear_succ (y : Nat) (hy : 1 ≤ y) :
    daysBeforeYear (y + 1) =
      daysBeforeYear y + (if isLeap y then 366 else 365) := by
  by_cases h : isLeap y = true
  · rw [if_pos h]
    rw [isLeap_prop] at h
    unfold daysBeforeYear
    omega
  · rw [if_neg h]
    rw [isLeap_prop] at h
    unfold daysBeforeYear
    omega

theorem daysBeforeYear_mono {y1 y2 : Nat} (h : y1 ≤ y2) :
    daysBeforeYear y1 ≤ daysBeforeYear y2 := by
  unfold daysBeforeYear
  have h4 : (y1 - 1) / 4 ≤ (y2 - 1) / 4 := Nat.div_le_div_right (by omega)
  have h400 : (y1 - 1) / 400 ≤ (y2 - 1) / 400 := Nat.div_le_div_right (by omega)
  have h100 : (y2 - 1) / 100 ≤ (y1 - 1) / 100 + ((y2 - 1) - (y1 - 1)) := by
    have h1 : (y2 - 1) ≤ (y1 - 1) + 100 * ((y2 - 1) - (y1 - 1)) := by omega
    have h2 : (y2 - 1) / 100 ≤
        ((y1 - 1) + 100 * ((y2 - 1) - (y1 - 1))) / 100 :=
      Nat.div_le_div_right h1
    rwa [Nat.add_mul_div_left _ _ (by norm_num)] at h2
  omega

theorem daysBeforeMonth_succ (y m : Nat) (hm : 1 ≤ m) :
    daysBeforeMonth y (m + 1) = daysBeforeMonth y m + daysInMonth y m := by
  obtain ⟨k, rfl⟩ : ∃ k, m = k + 1 := ⟨m - 1, by omega⟩
  rfl

theorem daysBeforeMonth_le_succ (y m : Nat) :
    daysBeforeMonth y m ≤ daysBeforeMonth y (m + 1) := by
  match m with
  | 0 => exact le_rfl
  | k + 1 =>
    rw [daysBeforeMonth_succ y (k + 1) (by omega)]
    omega

theorem daysBeforeMonth_mono (y : Nat) {m1 m2 : Nat} (h : m1 ≤ m2) :
    daysBeforeMonth y m1 ≤ daysBeforeMonth y m2 := by
  induction h with
  | refl => exact le_rfl
  | step h2 ih => exact le_trans ih (daysBeforeMonth_le_succ y _)

theorem daysBeforeMonth_13 (y : Nat) :
    daysBeforeMonth y 13 = if isLeap y then 366 else 365 := by
  by_cases h : isLeap y = true
  · rw [if_pos h]
    simp [daysBeforeMonth, daysInMonth, h]
  · rw [if_neg h]
    simp [daysBeforeMonth, daysInMonth, h]

theorem toordinal_le (d : PDate) (hv : validDate d) :
    toordinal d ≤ daysBeforeYear (d.year + 1) := by
  obtain ⟨hy, hm1, hm12, hd1, hd2, -, -, -⟩ := hv
  have h1 := daysBeforeMonth_succ d.year d.month hm1
  have h2 : daysBeforeMonth d.year (d.month + 1) ≤ daysBeforeMonth d.year 13 :=
    daysBeforeMonth_mono d.year (by omega)
  have h3 := daysBeforeMonth_13 d.year
  have h4 := daysBeforeYear_succ d.year hy
  by_cases hL : isLeap d.year = true
  · rw [if_pos hL] at h3 h4
    unfold toordinal
    omega
  · rw [if_neg hL] at h3 h4
    unfold toordinal
    omega

theorem toordinal_ge (d : PDate) (hv : validDate d) :
    daysBeforeYear d.year + 1 ≤ toordinal d := by
  obtain ⟨-, -, -, hd1, -, -, -, -⟩ := hv
  unfold toordinal
  omega

theorem toSec_lt_of_toordinal_lt (a b : PDate) (ha : validDate a)
    (h : toordinal a < toordinal b) : toSec a < toSec b := by
  obtain ⟨-, -, -, -, -, hh, hm, hs⟩ := ha
  unfold toSec
  omega

theorem toSec_lt_of_pdLt (a b : PDate) (ha : validDate a) (hb : validDate b)
    (h : pdLt a b = true) : toSec a < toSec b := by
  simp only [pdLt, Bool.or_eq_true, Bool.and_eq_true, decide_eq_true_eq,
    beq_iff_eq] at h
  rcases h with hy | ⟨hy, h⟩
  · refine toSec_lt_of_toordinal_lt a b ha ?_
    have h1 := toordinal_le a ha
    have h2 := toordinal_ge b hb
    have h3 : daysBeforeYear (a.year + 1) ≤ daysBeforeYear b.year :=
      daysBeforeYear_mono (by omega)
    omega
  rcases h with hm | ⟨hm, h⟩
  · refine toSec_lt_of_toordinal_lt a b ha ?_
    have h1 := daysBeforeMonth_succ a.year a.month ha.2.1
    have h2 : daysBeforeMonth a.year (a.month + 1) ≤
        daysBeforeMonth a.year b.month :=
      daysBeforeMonth_mono a.year (by omega)
    have hd2 := ha.2.2.2.2.1
    have hd1 := hb.2.2.2.1
    unfold toordinal
    rw [← hy]
    omega
  rcases h with hd | ⟨hd, h⟩
  · refine toSec_lt_of_toordinal_lt a b ha ?_
    unfold toordinal
    rw [← hy, ← hm]
    omega
  · have ho : toordinal a = toordinal b := by
      unfold toordinal
      rw [← hy, ← hm, ← hd]
    obtain ⟨-, -, -, -, -, -, hmb1, hsb1⟩ := ha
    unfold toSec
    rw [ho]
    omega

theorem toSec_le_of_not_pdLt (a b : PDate) (ha : validDate a)
    (hb : validDate b) (h : ¬ pdLt a b = true) : toSec b ≤ toSec a := by
  by_cases h2 : pdLt b a = true
  · exact le_of_lt (toSec_lt_of_pdLt b a hb ha h2)
  · simp only [pdLt, Bool.or_eq_true, Bool.and_eq_true, decide_eq_true_eq,
      beq_iff_eq] at h h2
    have hy : a.year = b.year := by omega
    have hm : a.month = b.month := by omega
    have hd : a.day = b.day := by omega
    have hh : a.hour = b.hour := by omega
    have hmi : a.minute = b.minute := by omega
    have hs : a.second = b.second := by omega
    unfold toSec toordinal
    rw [hy, hm, hd, hh, hmi, hs]

theorem deltaDays_le_iff (a b : PDate) :
    deltaDays a b ≤ 30 ↔ toSec a - toSec b < 31 * 86400 := by
  unfold deltaDays
  rw [Int.fdiv_eq_ediv _ (by norm_num)]
  omega

theorem deltaDays_mono (t : PDate) {x y : PDate} (h : toSec y ≤ toSec x) :
    deltaDays t x ≤ deltaDays t y := by
  unfold deltaDays
  rw [Int.fdiv_eq_ediv _ (by norm_num), Int.fdiv_eq_ediv _ (by norm_num)]
  omega

theorem takeWhile_eq_filter_of_antitone {α : Type} (p : α → Bool)
    (r : α → α → Prop) (hpr : ∀ a b, r a b → p b = true → p a = true)
    (l : List α) (hl : l.Pairwise r) : l.takeWhile p = l.filter p := by
  induction l with
  | nil => rfl
  | cons a l ih =>
    rw [List.pairwise_cons] at hl
    by_cases hpa : p a = true
    · rw [List.takeWhile_cons_of_pos hpa, List.filter_cons_of_pos hpa,
        ih hl.2]
    · rw [List.takeWhile_cons_of_neg hpa, List.filter_cons_of_neg hpa]
      have hall : ∀ b ∈ l, ¬ p b = true :=
        fun b hb hpb => hpa (hpr a b (hl.1 b hb) hpb)
      rw [List.filter_eq_nil_iff.mpr hall]

theorem isEmpty_false_of_ne_nil {α : Type} {l : List α} (h : l ≠ []) :
    l.isEmpty = false := by
  rw [Bool.eq_false_iff]
  intro h2
  exact h (List.isEmpty_iff.mp h2)

theorem monthBucketsGo_nil (cy cm : Nat) (acc : List DBook) :
    monthBucketsGo [] cy cm acc =
      if acc.isEmpty then [] else [(cy, cm, acc.reverse)] := rfl

theorem monthBucketsGo_cons_ne (cy cm : Nat) (acc : List DBook) (b : DBook)
    (rest : List DBook)
    (hc : (b.timestamp.month != cm || b.timestamp.year != cy) = true) :
    monthBucketsGo (b :: rest) cy cm acc =
      (if acc.isEmpty then [] else [(cy, cm, acc.reverse)]) ++
        monthBucketsGo rest b.timestamp.year b.timestamp.month [b] := by
  simp only [monthBucketsGo]
  rw [if_pos hc]

theorem monthBucketsGo_cons_eq (cy cm : Nat) (acc : List DBook) (b : DBook)
    (rest : List DBook)
    (hc : ¬ (b.timestamp.month != cm || b.timestamp.year != cy) = true) :
    monthBucketsGo (b :: rest) cy cm acc =
      monthBucketsGo rest cy cm (b :: acc) := by
  simp only [monthBucketsGo]
  rw [if_neg hc]

theorem monthBucketsGo_flatten (l : List DBook) :
    ∀ cy cm acc, ((monthBucketsGo l cy cm acc).map
      (fun g => g.2.2)).flatten = acc.reverse ++ l := by
  induction l with
  | nil =>
    intro cy cm acc
    rw [monthBucketsGo_nil]
    by_cases h : acc.isEmpty = true
    · rw [if_pos h, List.isEmpty_iff.mp h]
      rfl
    · rw [if_neg h]
      simp
  | cons b rest ih =>
    intro cy cm acc
    by_cases hc : (b.timestamp.month != cm || b.timestamp.year != cy) = true
    · rw [monthBucketsGo_cons_ne cy cm acc b rest hc]
      by_cases h : acc.isEmpty = true
      · rw [if_pos h, List.isEmpty_iff.mp h, List.nil_append, ih]
        rfl
      · rw [if_neg h]
        simp only [List.map_append, List.flatten_append, ih]
        simp
    · rw [monthBucketsGo_cons_eq cy cm acc b rest hc, ih]
      simp

theorem monthBucketsGo_labels (l : List DBook) :
    ∀ cy cm acc, (∀ b ∈ acc, b.timestamp.year = cy ∧ b.timestamp.month = cm) →
      ∀ g ∈ monthBucketsGo l cy cm acc, g.2.2 ≠ [] ∧
        ∀ b ∈ g.2.2, b.timestamp.year = g.1 ∧ b.timestamp.month = g.2.1 := by
  induction l with
  | nil =>
    intro cy cm acc hacc g hg
    rw [monthBucketsGo_nil] at hg
    by_cases h : acc.isEmpty = true
    · rw [if_pos h] at hg
      exact absurd hg (List.not_mem_nil g)
    · rw [if_neg h, List.mem_singleton] at hg
      subst hg
      refine ⟨?_, ?_⟩
      · simp only [ne_eq, List.reverse_eq_nil_iff]
        intro he
        rw [he] at h
        exact h rfl
      · intro b hb
        rw [List.mem_reverse] at hb
        exact hacc b hb
  | cons b rest ih =>
    intro cy cm acc hacc g hg
    by_cases hc : (b.timestamp.month != cm || b.timestamp.year != cy) = true
    · rw [monthBucketsGo_cons_ne cy cm acc b rest hc,
        List.mem_append] at hg
      rcases hg with hg | hg
      · by_cases h : acc.isEmpty = true
        · rw [if_pos h] at hg
          exact absurd hg (List.not_mem_nil g)
        · rw [if_neg h, List.mem_singleton] at hg
          subst hg
          refine ⟨?_, ?_⟩
          · simp only [ne_eq, List.reverse_eq_nil_iff]
            intro he
            rw [he] at h
            exact h rfl
          · intro x hx
            rw [List.mem_reverse] at hx
            exact hacc x hx
      · refine ih b.timestamp.year b.timestamp.month [b] ?_ g hg
        intro x hx
        rw [List.mem_singleton] at hx
        subst hx
        exact ⟨rfl, rfl⟩
    · rw [monthBucketsGo_cons_eq cy cm acc b rest hc] at hg
      refine ih cy cm (b :: acc) ?_ g hg
      simp only [Bool.or_eq_true, bne_iff_ne, ne_eq, not_or, not_not] at hc
      intro x hx
      rcases List.mem_cons.mp hx with hx | hx
      · subst hx
        exact ⟨hc.2, hc.1⟩
      · exact hacc x hx

theorem monthBucketsGo_head (l : List DBook) :
    ∀ cy cm acc, acc ≠ [] →
      ∃ bl tl, monthBucketsGo l cy cm acc = (cy, cm, bl) :: tl := by
  induction l with
  | nil =>
    intro cy cm acc hacc
    refine ⟨acc.reverse, [], ?_⟩
    rw [monthBucketsGo_nil, if_neg]
    rw [isEmpty_false_of_ne_nil hacc]
    exact Bool.false_ne_true
  | cons b rest ih =>
    intro cy cm acc hacc
    by_cases hc : (b.timestamp.month != cm || b.timestamp.year != cy) = true
    · refine ⟨acc.reverse,
        monthBucketsGo rest b.timestamp.year b.timestamp.month [b], ?_⟩
      rw [monthBucketsGo_cons_ne cy cm acc b rest hc, if_neg, List.cons_append,
        List.nil_append]
      rw [isEmpty_false_of_ne_nil hacc]
      exact Bool.false_ne_true
    · obtain ⟨bl, tl, heq⟩ := ih cy cm (b :: acc) (by simp)
      refine ⟨bl, tl, ?_⟩
      rw [monthBucketsGo_cons_eq cy cm acc b rest hc]
      exact heq

theorem monthBucketsGo_chain (l : List DBook) :
    ∀ cy cm acc, l.Pairwise tsGe →
      (acc ≠ [] → ∀ b ∈ l, b.timestamp.year < cy ∨
        (b.timestamp.year = cy ∧ b.timestamp.month ≤ cm)) →
      List.Chain' (fun p q : Nat × Nat => q.1 < p.1 ∨ (q.1 = p.1 ∧ q.2 < p.2))
        ((monthBucketsGo l cy cm acc).map (fun g => (g.1, g.2.1))) := by
  induction l with
  | nil =>
    intro cy cm acc _ _
    rw [monthBucketsGo_nil]
    by_cases h : acc.isEmpty = true
    · rw [if_pos h]
      simp
    · rw [if_neg h]
      simp
  | cons b rest ih =>
    intro cy cm acc hp hinv
    rw [List.pairwise_cons] at hp
    have hrest : ∀ x ∈ rest, x.timestamp.year < b.timestamp.year ∨
        (x.timestamp.year = b.timestamp.year ∧
          x.timestamp.month ≤ b.timestamp.month) :=
      fun x hx => ym_le_of_tsGe b x (hp.1 x hx)
    by_cases hc : (b.timestamp.month != cm || b.timestamp.year != cy) = true
    · rw [monthBucketsGo_cons_ne cy cm acc b rest hc]
      by_cases h : acc.isEmpty = true
      · rw [if_pos h, List.nil_append]
        exact ih b.timestamp.year b.timestamp.month [b] hp.2 (fun _ => hrest)
      · rw [if_neg h, List.singleton_append, List.map_cons]
        obtain ⟨bl, tl, heq⟩ := monthBucketsGo_head rest
          b.timestamp.year b.timestamp.month [b] (by simp)
        rw [heq, List.map_cons]
        refine List.Chain'.cons ?_ ?_
        · have hne : acc ≠ [] := by
            intro he
            rw [he] at h
            exact h rfl
          have hb : b.timestamp.year < cy ∨
              (b.timestamp.year = cy ∧ b.timestamp.month ≤ cm) :=
            hinv hne b (List.mem_cons_self b rest)
          simp only [Bool.or_eq_true, bne_iff_ne, ne_eq] at hc
          dsimp only
          omega
        · have hch := ih b.timestamp.year b.timestamp.month [b] hp.2
            (fun _ => hrest)
          rwa [heq, List.map_cons] at hch
    · rw [monthBucketsGo_cons_eq cy cm acc b rest hc]
      simp only [Bool.or_eq_true, bne_iff_ne, ne_eq, not_or, not_not] at hc
      refine ih cy cm (b :: acc) hp.2 ?_
      intro _ x hx
      have hx2 := hrest x hx
      omega

theorem pairwise_of_mem {α : Type} (P : α → Prop) (l : List α)
    (h : ∀ x ∈ l, P x) : l.Pairwise (fun a b => P a ∧ P b) := by
  induction l with
  | nil => exact List.Pairwise.nil
  | cons a l ih =>
    rw [List.pairwise_cons]
    refine ⟨fun b hb => ⟨h a (List.mem_cons_self a l),
      h b (List.mem_cons_of_mem a hb)⟩, ih ?_⟩
    intro x hx
    exact h x (List.mem_cons_of_mem a hx)

/-- C7: in the Recently Added grouping with `DATE_RANGE = [30]` and
calendar-valid book timestamps, the `Last 30 days` bucket (built by a
`break`ing walk over the reverse-chronologically sorted books) equals the
filter of the sorted books by `delta.days <= 30`, and contains exactly
the books whose timestamp is within 30 days of the build time
(`toSec today - toSec timestamp < 31 * 86400`, with `today` the build
time pushed to 23:59:59); the month buckets that follow partition the
sorted books — their concatenation is the sorted list, a permutation of
the input — each bucket is non-empty and labelled with exactly the year
and month of every book it holds, and the bucket labels are strictly
reverse-chronological. -/
theorem C7_date_added_grouping (now : PDate) (books : List DBook)
    (hv : ∀ b ∈ books, validDate b.timestamp) :
    dateRangeBucket (todayTime now) books =
      (sortedByTimestampDesc books).filter
        (fun b => decide (deltaDays (todayTime now) b.timestamp ≤ (30 : Int))) ∧
    (∀ b : DBook, b ∈ dateRangeBucket (todayTime now) books ↔
      (b ∈ books ∧
        toSec (todayTime now) - toSec b.timestamp < 31 * 86400)) ∧
    ((monthBuckets books).map (fun g => g.2.2)).flatten =
      sortedByTimestampDesc books ∧
    (sortedByTimestampDesc books).Perm books ∧
    (∀ g ∈ monthBuckets books, g.2.2 ≠ [] ∧
      ∀ b ∈ g.2.2, b.timestamp.year = g.1 ∧ b.timestamp.month = g.2.1) ∧
    List.Chain' (fun p q : Nat × Nat => q.1 < p.1 ∨ (q.1 = p.1 ∧ q.2 < p.2))
      ((monthBuckets books).map (fun g => (g.1, g.2.1))) := by
  have hperm : (sortedByTimestampDesc books).Perm books :=
    List.perm_insertionSort tsGe books
  have hmemS : ∀ b : DBook, b ∈ sortedByTimestampDesc books ↔ b ∈ books :=
    fun b => hperm.mem_iff
  have hvs : ∀ b ∈ sortedByTimestampDesc books, validDate b.timestamp :=
    fun b hb => hv b ((hmemS b).mp hb)
  have hsorted : (sortedByTimestampDesc books).Pairwise tsGe :=
    List.sorted_insertionSort tsGe books
  have hpw : (sortedByTimestampDesc books).Pairwise
      (fun a b => tsGe a b ∧
        ((fun x : DBook => validDate x.timestamp) a ∧
          (fun x : DBook => validDate x.timestamp) b)) :=
    hsorted.and (pairwise_of_mem (fun x : DBook => validDate x.timestamp)
      (sortedByTimestampDesc books) hvs)
  have h1 : dateRangeBucket (todayTime now) books =
      (sortedByTimestampDesc books).filter
        (fun b => decide (deltaDays (todayTime now) b.timestamp ≤ (30 : Int))) := by
    unfold dateRangeBucket
    refine takeWhile_eq_filter_of_antitone _ _ ?_ _ hpw
    intro a b hab hpb
    rw [decide_eq_true_eq] at hpb ⊢
    refine le_trans ?_ hpb
    exact deltaDays_mono (todayTime now)
      (toSec_le_of_not_pdLt a.timestamp b.timestamp hab.2.1 hab.2.2 hab.1)
  refine ⟨h1, ?_, ?_, hperm, ?_, ?_⟩
  · intro b
    rw [h1, List.mem_filter, hmemS b, decide_eq_true_eq, deltaDays_le_iff]
  · have hf := monthBucketsGo_flatten (sortedByTimestampDesc books) 1 1 []
    unfold monthBuckets
    rw [hf]
    rfl
  · exact monthBucketsGo_labels (sortedByTimestampDesc books) 1 1 []
      (fun b hb => absurd hb (List.not_mem_nil b))
  · exact monthBucketsGo_chain (sortedByTimestampDesc books) 1 1 [] hsorted
      (fun h => absurd rfl h)

/-- C7, witness: the theorem applied to a concrete three-book library
built on 2010-06-15, with books added 2010-06-10, 2010-04-20 and
2010-06-01. -/
theorem C7_witness :
    (∀ b ∈ ([⟨1, "A", "X", ⟨2010, 6, 10, 0, 0, 0⟩⟩,
        ⟨2, "B", "Y", ⟨2010, 4, 20, 12, 0, 0⟩⟩,
        ⟨3, "C", "Z", ⟨2010, 6, 1, 5, 0, 0⟩⟩] : List DBook),
      validDate b.timestamp) ∧
    (dateRangeBucket (todayTime ⟨2010, 6, 15, 10, 30, 0⟩)
        [⟨1, "A", "X", ⟨2010, 6, 10, 0, 0, 0⟩⟩,
         ⟨2, "B", "Y", ⟨2010, 4, 20, 12, 0, 0⟩⟩,
         ⟨3, "C", "Z", ⟨2010, 6, 1, 5, 0, 0⟩⟩] =
      (sortedByTimestampDesc
        [⟨1, "A", "X", ⟨2010, 6, 10, 0, 0, 0⟩⟩,
         ⟨2, "B", "Y", ⟨2010, 4, 20, 12, 0, 0⟩⟩,
         ⟨3, "C", "Z", ⟨2010, 6, 1, 5, 0, 0⟩⟩]).filter
        (fun b => decide (deltaDays (todayTime ⟨2010, 6, 15, 10, 30, 0⟩)
          b.timestamp ≤ (30 : Int))) ∧
    (∀ b : DBook, b ∈ dateRangeBucket (todayTime ⟨2010, 6, 15, 10, 30, 0⟩)
        [⟨1, "A", "X", ⟨2010, 6, 10, 0, 0, 0⟩⟩,
         ⟨2, "B", "Y", ⟨2010, 4, 20, 12, 0, 0⟩⟩,
         ⟨3, "C", "Z", ⟨2010, 6, 1, 5, 0, 0⟩⟩] ↔
      (b ∈ ([⟨1, "A", "X", ⟨2010, 6, 10, 0, 0, 0⟩⟩,
         ⟨2, "B", "Y", ⟨2010, 4, 20, 12, 0, 0⟩⟩,
         ⟨3, "C", "Z", ⟨2010, 6, 1, 5, 0, 0⟩⟩] : List DBook) ∧
        toSec (todayTime ⟨2010, 6, 15, 10, 30, 0⟩) - toSec b.timestamp <
          31 * 86400)) ∧
    ((monthBuckets
        [⟨1, "A", "X", ⟨2010, 6, 10, 0, 0, 0⟩⟩,
         ⟨2, "B", "Y", ⟨2010, 4, 20, 12, 0, 0⟩⟩,
         ⟨3, "C", "Z", ⟨2010, 6, 1, 5, 0, 0⟩⟩]).map (fun g => g.2.2)).flatten =
      sortedByTimestampDesc
        [⟨1, "A", "X", ⟨2010, 6, 10, 0, 0, 0⟩⟩,
         ⟨2, "B", "Y", ⟨2010, 4, 20, 12, 0, 0⟩⟩,
         ⟨3, "C", "Z", ⟨2010, 6, 1, 5, 0, 0⟩⟩] ∧
    (sortedByTimestampDesc
        [⟨1, "A", "X", ⟨2010, 6, 10, 0, 0, 0⟩⟩,
         ⟨2, "B", "Y", ⟨2010, 4, 20, 12, 0, 0⟩⟩,
         ⟨3, "C", "Z", ⟨2010, 6, 1, 5, 0, 0⟩⟩]).Perm
      [⟨1, "A", "X", ⟨2010, 6, 10, 0, 0, 0⟩⟩,
       ⟨2, "B", "Y", ⟨2010, 4, 20, 12, 0, 0⟩⟩,
       ⟨3, "C", "Z", ⟨2010, 6, 1, 5, 0, 0⟩⟩] ∧
    (∀ g ∈ monthBuckets
        [⟨1, "A", "X", ⟨2010, 6, 10, 0, 0, 0⟩⟩,
         ⟨2, "B", "Y", ⟨2010, 4, 20, 12, 0, 0⟩⟩,
         ⟨3, "C", "Z", ⟨2010, 6, 1, 5, 0, 0⟩⟩], g.2.2 ≠ [] ∧
      ∀ b ∈ g.2.2, b.timestamp.year = g.1 ∧ b.timestamp.month = g.2.1) ∧
    List.Chain' (fun p q : Nat × Nat => q.1 < p.1 ∨ (q.1 = p.1 ∧ q.2 < p.2))
      ((monthBuckets
        [⟨1, "A", "X", ⟨2010, 6, 10, 0, 0, 0⟩⟩,
         ⟨2, "B", "Y", ⟨2010, 4, 20, 12, 0, 0⟩⟩,
         ⟨3, "C", "Z", ⟨2010, 6, 1, 5, 0, 0⟩⟩]).map
        (fun g => (g.1, g.2.1)))) :=
  ⟨by decide, C7_date_added_grouping ⟨2010, 6, 15, 10, 30, 0⟩
    [⟨1, "A", "X", ⟨2010, 6, 10, 0, 0, 0⟩⟩,
     ⟨2, "B", "Y", ⟨2010, 4, 20, 12, 0, 0⟩⟩,
     ⟨3, "C", "Z", ⟨2010, 6, 1, 5, 0, 0⟩⟩] (by decide)⟩

end Catalog
